import Mathlib

/-!
The publish pipeline of cpgo.

A shallow embedding of `internal/gitops/gh`, `internal/pprof` and `cmd/cpgo` (function `run`).

Conventions of the embedding.

* Go strings are modelled by `String`, read as a sequence of characters; the string functions of
  the Go standard library used by the program (`strings.Cut`, `strings.HasSuffix`, ...) are
  defined on the character sequence.
* A Go pointer that may be nil is an `Option`; dereferencing `none` is the run-time panic
  `Outcome.nilDeref`.
* A Go function returning `(T, error)` returns a pair whose second component is `Option GoError`;
  the errors answered by dependencies are the values of `LibError`.
* The remote side (GitHub REST API behind go-github, the HTTP endpoints serving profiles, the
  process clock) is an abstract state `σ` threaded through every call; each call may answer
  anything.  The `context.Context` argument only influences those answers and is not modelled
  separately.
* Every remote call is recorded, request and answer, in the list `Exec.calls`.
-/

namespace Cpgo

/-! ## Go standard library: strings -/

namespace strings

/-- Go `strings.HasSuffix` on character sequences:
`len(s) >= len(suffix) && s[len(s)-len(suffix):] == suffix`. -/
def hasSuffixChars (s suffix : List Char) : Bool :=
  decide (suffix.length ≤ s.length) && decide (s.drop (s.length - suffix.length) = suffix)

/-- Go `strings.HasSuffix`. -/
def HasSuffix (s suffix : String) : Bool :=
  hasSuffixChars s.data suffix.data

/-- Go `strings.TrimSuffix`: `s` without the trailing `suffix`, or `s` itself. -/
def TrimSuffix (s suffix : String) : String :=
  if HasSuffix s suffix then String.mk (s.data.take (s.data.length - suffix.data.length)) else s

/-- Go `strings.CutPrefix`: `s` without the leading `pfx` and whether it was found. -/
def CutPrefix (s pfx : String) : String × Bool :=
  if pfx.data.isPrefixOf s.data then (String.mk (s.data.drop pfx.data.length), true) else (s, false)

/-- The split of a character sequence around the first occurrence of `sep`
(`strings.Index` followed by the two slices), `none` when `sep` does not occur. -/
def cutChars (sep : List Char) : List Char → Option (List Char × List Char)
  | [] => if sep = [] then some ([], []) else none
  | c :: cs =>
    if sep.isPrefixOf (c :: cs) then some ([], (c :: cs).drop sep.length)
    else
      match cutChars sep cs with
      | some (before, after) => some (c :: before, after)
      | none => none

/-- Go `strings.Cut`: slices `s` around the first instance of `sep`; when `sep` does not appear
the result is `(s, "", false)`. -/
def Cut (s sep : String) : String × String × Bool :=
  match cutChars sep.data s.data with
  | some (before, after) => (String.mk before, String.mk after, true)
  | none => (s, "", false)

end strings

namespace strconv

/-- The decimal digit character of `d` (for `d < 10`). -/
def digitChar (d : Nat) : Char :=
  Char.ofNat (48 + d)

/-- Decimal digits of `n`, most significant first; `fuel` bounds the number of digits. -/
def decimalDigits : Nat → Nat → List Char
  | 0, _ => []
  | fuel + 1, n =>
    if n < 10 then [digitChar n] else decimalDigits fuel (n / 10) ++ [digitChar (n % 10)]

/-- Go `strconv.Itoa`: the base-10 rendering of an integer, with a leading `-` when negative. -/
def Itoa (i : Int) : String :=
  if i < 0 then String.mk ('-' :: decimalDigits (i.natAbs + 1) i.natAbs)
  else String.mk (decimalDigits (i.toNat + 1) i.toNat)

end strconv

namespace base64

/-- The alphabet of `base64.StdEncoding`. -/
def encodeStd : List Char :=
  "ABCDEFGHIJKLMNOPQRSTUVWXYZabcdefghijklmnopqrstuvwxyz0123456789+/".data

/-- The character of a 6-bit value. -/
def sextet (n : Nat) : Char :=
  encodeStd.getD (n % 64) 'A'

/-- Standard base64 of a byte sequence, with `=` padding. -/
def encodeChars : List UInt8 → List Char
  | a :: b :: c :: rest =>
    let v := a.toNat * 65536 + b.toNat * 256 + c.toNat
    sextet (v / 262144) :: sextet (v / 4096) :: sextet (v / 64) :: sextet v :: encodeChars rest
  | [a, b] =>
    let v := a.toNat * 65536 + b.toNat * 256
    [sextet (v / 262144), sextet (v / 4096), sextet (v / 64), '=']
  | [a] =>
    let v := a.toNat * 65536
    [sextet (v / 262144), sextet (v / 4096), '=', '=']
  | [] => []

/-- Go `base64.StdEncoding.EncodeToString`. -/
def EncodeToString (src : List UInt8) : String :=
  String.mk (encodeChars src)

end base64

/-! ## Errors -/

/-- An error value produced by a dependency of the program (go-github, net/http, the pprof
codec); `id` stands for the identity of the value.  Every error answered by the remote side is of
this type: package `gitops` is internal to the module (`internal/gitops`), so no dependency can
produce or wrap its sentinel. -/
structure LibError where
  id : Nat
  msg : String
  deriving DecidableEq, Repr

/-- The error values the program handles. -/
inductive GoError where
  /-- Modelled from the spec: the sentinel `gitops.ErrPGOFileNotFound`, declared in package
  `internal/gitops`, whose file is not among the sources; the distinguished "not found" condition
  of the existence lookup, a value of its own that `errors.Is` recognises. -/
  | ErrPGOFileNotFound
  /-- An error returned by a dependency. -/
  | lib (e : LibError)
  /-- The value of `fmt.Errorf(msg)` for a format without `%w`. -/
  | errorf (msg : String)
  /-- The value of `fmt.Errorf(pfx + "%w", inner)`. -/
  | wrapf (pfx : String) (inner : GoError)
  deriving DecidableEq, Repr

namespace GoError

/-- The method `Error()`.  The text of the sentinel is declared with it in package `gitops` and is
the parameter `notFoundText`. -/
def Error (notFoundText : String) : GoError → String
  | ErrPGOFileNotFound => notFoundText
  | lib e => e.msg
  | errorf msg => msg
  | wrapf pfx inner => pfx ++ Error notFoundText inner

/-- Go `errors.Unwrap`. -/
def Unwrap : GoError → Option GoError
  | wrapf _ inner => some inner
  | _ => none

/-- Go `errors.Is`: `target` is met somewhere along the chain of `err`.  The targets used by the
program and by the properties below are the sentinel and errors of dependencies, for which
identity of values is equality here. -/
def Is (err target : GoError) : Bool :=
  match err with
  | wrapf pfx inner => decide (wrapf pfx inner = target) || Is inner target
  | e => decide (e = target)

end GoError

/-! ## `internal/gitops/gh/repo.go` -/

/-- Go `gh.Repository`. -/
structure Repository where
  Org : String
  Name : String
  deriving DecidableEq, Repr

/-- Go `gh.ParseRepoURL`. -/
def ParseRepoURL (repoURL : String) : Repository :=
  let orgWithName := (strings.Cut repoURL "github.com/").2.1
  let r := strings.Cut orgWithName "/"
  { Org := r.1, Name := strings.TrimSuffix r.2.1 "/" }

/-! ## go-github: the values exchanged with the REST API

Only the fields the program reads or writes are kept. -/

namespace github

/-- Go `github.Response`: go-github embeds the `*http.Response` it received. -/
structure Response where
  StatusCode : Int
  deriving DecidableEq, Repr

/-- Go `github.RepositoryContentGetOptions`. -/
structure RepositoryContentGetOptions where
  Ref : String
  deriving DecidableEq, Repr

/-- Go `github.ReferenceListOptions`. -/
structure ReferenceListOptions where
  Ref : String
  deriving DecidableEq, Repr

/-- Go `github.RepositoryContent`. -/
structure RepositoryContent where
  DownloadURL : Option String
  deriving DecidableEq, Repr

/-- Go `github.Blob`. -/
structure Blob where
  Content : Option String
  Encoding : Option String
  SHA : Option String
  deriving DecidableEq, Repr

/-- Go `github.GitObject`. -/
structure GitObject where
  SHA : Option String
  deriving DecidableEq, Repr

/-- Go `github.Reference`. -/
structure Reference where
  Ref : Option String
  Object : Option GitObject
  deriving DecidableEq, Repr

/-- Go `github.TreeEntry`. -/
structure TreeEntry where
  SHA : Option String
  Path : Option String
  Mode : Option String
  /-- The field `Type` (a reserved word here). -/
  EntryType : Option String
  deriving DecidableEq, Repr

/-- Go `github.Tree`. -/
structure Tree where
  SHA : Option String
  Entries : List (Option TreeEntry)
  deriving DecidableEq, Repr

end github

/-- Go `time.Time` as the program uses it: the value of `Unix()` and the text produced by
`Format(time.RFC3339)` (which depends on the location of the process). -/
structure Time where
  Unix : Int
  RFC3339 : String
  deriving DecidableEq, Repr

namespace github

/-- Go `github.Timestamp`. -/
structure Timestamp where
  Time : Time
  deriving DecidableEq, Repr

/-- Go `github.CommitAuthor`. -/
structure CommitAuthor where
  Date : Option Timestamp
  Name : Option String
  Email : Option String
  deriving DecidableEq, Repr

/-- An element of `Commit.Parents` (`*github.Commit`): the program sets its `SHA` only. -/
structure ParentCommit where
  SHA : Option String
  deriving DecidableEq, Repr

/-- Go `github.Commit`. -/
structure Commit where
  SHA : Option String
  Author : Option CommitAuthor
  Message : Option String
  Tree : Option Tree
  Parents : List (Option ParentCommit)
  deriving DecidableEq, Repr

/-- Go `github.NewPullRequest`. -/
structure NewPullRequest where
  Title : Option String
  Head : Option String
  Base : Option String
  Body : Option String
  deriving DecidableEq, Repr

/-- Go `github.PullRequest`. -/
structure PullRequest where
  HTMLURL : Option String
  deriving DecidableEq, Repr

end github

/-! ## Executions -/

/-- How a Go function call ends: it returns, or the goroutine panics on a nil pointer
dereference. -/
inductive Outcome (α : Type) where
  | ret (a : α)
  | nilDeref
  deriving DecidableEq, Repr

/-- An execution from a given remote state: how it ended, the remote state it left, and the
remote calls it made, in order. -/
structure Exec (σ ε α : Type) where
  out : Outcome α
  world : σ
  calls : List ε

/-- A Go function body over the remote state `σ`, recording calls of type `ε`. -/
def Prog (σ ε α : Type) : Type :=
  σ → Exec σ ε α

namespace Prog

variable {σ ε ε₂ α β : Type}

/-- Return a value, touching nothing. -/
def pure (a : α) : Prog σ ε α :=
  fun s => ⟨.ret a, s, []⟩

/-- Nil pointer dereference. -/
def nilDeref : Prog σ ε α :=
  fun s => ⟨.nilDeref, s, []⟩

/-- Sequencing: a panic in the first part ends the execution. -/
def bind (m : Prog σ ε α) (f : α → Prog σ ε β) : Prog σ ε β :=
  fun s =>
    match m s with
    | ⟨.ret a, s₁, cs⟩ => ⟨(f a s₁).out, (f a s₁).world, cs ++ (f a s₁).calls⟩
    | ⟨.nilDeref, s₁, cs⟩ => ⟨.nilDeref, s₁, cs⟩

/-- An interaction that is not a remote call (reading the clock). -/
def read (f : σ → α × σ) : Prog σ ε α :=
  fun s => ⟨.ret (f s).1, (f s).2, []⟩

/-- Dereference of a pointer. -/
def deref : Option α → Prog σ ε α
  | some a => pure a
  | none => nilDeref

/-- One remote call: `f` is the answer of the remote side, `record` the entry for the call. -/
def call (f : σ → α × σ) (record : α → ε) : Prog σ ε α :=
  fun s => ⟨.ret (f s).1, (f s).2, [record (f s).1]⟩

/-- A sub-execution over a state of its own (a local variable such as a buffer), started from
`init`; its final state is returned with its result. -/
def withBuffer {ω : Type} (init : ω) (g : ε₂ → ε) (m : Prog ω ε₂ α) : Prog σ ε (α × ω) :=
  fun s =>
    match (m init).out with
    | .ret a => ⟨.ret (a, (m init).world), s, (m init).calls.map g⟩
    | .nilDeref => ⟨.nilDeref, s, (m init).calls.map g⟩

/-- The same execution with its calls recorded in another vocabulary. -/
def mapCalls (g : ε → ε₂) (m : Prog σ ε α) : Prog σ ε₂ α :=
  fun s => ⟨(m s).out, (m s).world, (m s).calls.map g⟩

end Prog

instance {σ ε : Type} : Monad (Prog σ ε) where
  pure := Prog.pure
  bind := Prog.bind

/-! ## The go-github client -/

namespace github

/-- The answer of `Repositories.GetContents`: file content, response, error (the directory
listing, which the program discards, is omitted). -/
abbrev GetContentsResult : Type :=
  Option RepositoryContent × Option Response × Option LibError

/-- Go `*github.Client`: the service methods the program calls, as transitions of the remote
state.  `Now` is the process clock (`time.Now`), carried here for convenience. -/
structure Client (σ : Type) where
  GetContents : (owner repo path : String) → Option RepositoryContentGetOptions → σ →
    GetContentsResult × σ
  CreateBlob : (owner repo : String) → Blob → σ → (Option Blob × Option LibError) × σ
  ListMatchingRefs : (owner repo : String) → Option ReferenceListOptions → σ →
    (List (Option Reference) × Option LibError) × σ
  CreateTree : (owner repo baseTree : String) → List (Option TreeEntry) → σ →
    (Option Tree × Option LibError) × σ
  CreateCommit : (owner repo : String) → Commit → σ → (Option Commit × Option LibError) × σ
  CreateRef : (owner repo : String) → Reference → σ → (Option Reference × Option LibError) × σ
  CreatePullRequest : (owner repo : String) → NewPullRequest → σ →
    (Option PullRequest × Option LibError) × σ
  Now : σ → Time × σ

end github

/-- A remote call of the GitHub client, with the request sent and the answer received. -/
inductive Call where
  | GetContents (owner repo path : String) (opts : Option github.RepositoryContentGetOptions)
      (res : github.GetContentsResult)
  | CreateBlob (owner repo : String) (blob : github.Blob)
      (res : Option github.Blob × Option LibError)
  | ListMatchingRefs (owner repo : String) (opts : Option github.ReferenceListOptions)
      (res : List (Option github.Reference) × Option LibError)
  | CreateTree (owner repo baseTree : String) (entries : List (Option github.TreeEntry))
      (res : Option github.Tree × Option LibError)
  | CreateCommit (owner repo : String) (commit : github.Commit)
      (res : Option github.Commit × Option LibError)
  | CreateRef (owner repo : String) (ref : github.Reference)
      (res : Option github.Reference × Option LibError)
  | CreatePullRequest (owner repo : String) (pull : github.NewPullRequest)
      (res : Option github.PullRequest × Option LibError)
  deriving DecidableEq, Repr

/-! ## `internal/gitops/gh/client.go` -/

/-- Go `gh.Options`. -/
structure Options where
  Repo : Repository
  Filename : String
  MainBranch : String
  deriving DecidableEq, Repr

/-- Go `gh.Client`. -/
structure Client (σ : Type) where
  github : github.Client σ

namespace Client

variable {σ : Type}

/-- Go `Client.ExistingPGOFileURL`. -/
def ExistingPGOFileURL (c : Client σ) (opts : Options) : Prog σ Call (String × Option GoError) := do
  let (fileContent, resp, err) ←
    Prog.call (c.github.GetContents opts.Repo.Org opts.Repo.Name opts.Filename none)
      (Call.GetContents opts.Repo.Org opts.Repo.Name opts.Filename none)
  match err with
  | some err => do
    let resp ← Prog.deref resp
    if resp.StatusCode = 404 then
      pure ("", some (.wrapf "github.Repositories.GetContents: " .ErrPGOFileNotFound))
    else
      pure ("", some (.wrapf "github.Repositories.GetContents: " (.lib err)))
  | none => do
    let fileContent ← Prog.deref fileContent
    let downloadURL ← Prog.deref fileContent.DownloadURL
    pure (downloadURL, none)

/-- Go `Client.createBlob`. -/
def createBlob (c : Client σ) (opts : Options) (fileContent : List UInt8) :
    Prog σ Call (Option String × Option GoError) := do
  let content := base64.EncodeToString fileContent
  let req : github.Blob := { Content := some content, Encoding := some "base64", SHA := none }
  let (blob, err) ←
    Prog.call (c.github.CreateBlob opts.Repo.Org opts.Repo.Name req)
      (Call.CreateBlob opts.Repo.Org opts.Repo.Name req)
  match err with
  | some err => pure (none, some (.wrapf "github.Git.CreateBlob: " (.lib err)))
  | none => do
    let blob ← Prog.deref blob
    pure (blob.SHA, none)

/-- The condition of the loop of `findMainBranchRef`:
`ref != nil && ref.Ref != nil && strings.HasSuffix(*ref.Ref, opts.MainBranch)`. -/
def refMatches (opts : Options) (ref : Option github.Reference) : Bool :=
  match ref with
  | none => false
  | some r =>
    match r.Ref with
    | none => false
    | some name => strings.HasSuffix name opts.MainBranch

/-- The loop of `findMainBranchRef` over the listed refs: the first element that satisfies the
condition is returned, `none` when the loop runs to its end. -/
def findRefLoop (opts : Options) : List (Option github.Reference) → Option github.Reference
  | [] => none
  | ref :: rest => if refMatches opts ref then ref else findRefLoop opts rest

/-- Go `Client.findMainBranchRef`. -/
def findMainBranchRef (c : Client σ) (opts : Options) :
    Prog σ Call (Option github.Reference × Option GoError) := do
  let (refs, err) ←
    Prog.call (c.github.ListMatchingRefs opts.Repo.Org opts.Repo.Name none)
      (Call.ListMatchingRefs opts.Repo.Org opts.Repo.Name none)
  match err with
  | some err => pure (none, some (.wrapf "github.Git.ListMatchingRefs: " (.lib err)))
  | none =>
    match findRefLoop opts refs with
    | some ref => pure (some ref, none)
    | none => pure (none, some (.errorf ("could not find ref for branch " ++ opts.MainBranch)))

/-- Go `Client.createTree`. -/
def createTree (c : Client σ) (opts : Options) (blobSHA mainRef : String) :
    Prog σ Call (Option github.Tree × Option GoError) := do
  let entry : github.TreeEntry :=
    { SHA := some blobSHA, EntryType := some "blob", Mode := some "100644",
      Path := some opts.Filename }
  let (tree, err) ←
    Prog.call (c.github.CreateTree opts.Repo.Org opts.Repo.Name mainRef [some entry])
      (Call.CreateTree opts.Repo.Org opts.Repo.Name mainRef [some entry])
  match err with
  | some err => pure (none, some (.wrapf "github.Git.CreateTree: " (.lib err)))
  | none => pure (tree, none)

/-- Go `Client.commitFile`. -/
def commitFile (c : Client σ) (opts : Options) (tree : Option github.Tree) (mainRef : String) :
    Prog σ Call (Option String × Option GoError) := do
  let now ← Prog.read c.github.Now
  let commitReq : github.Commit :=
    { SHA := none
      Tree := tree
      Message := some "chore: update PGO file with new traces"
      Author := some
        { Name := some "CPGO Automatic Updates", Email := some "example@example.com",
          Date := some { Time := now } }
      Parents := [some { SHA := some mainRef }] }
  let (commitRes, err) ←
    Prog.call (c.github.CreateCommit opts.Repo.Org opts.Repo.Name commitReq)
      (Call.CreateCommit opts.Repo.Org opts.Repo.Name commitReq)
  match err with
  | some err => pure (none, some (.wrapf "github.Git.CreateCommit: " (.lib err)))
  | none => do
    let commitRes ← Prog.deref commitRes
    pure (commitRes.SHA, none)

/-- Go `Client.createNewRef`.  The conversion `int(time.Now().Unix())` is the identity: `Unix()` is an
`int64` and `int` has 64 bits on the 64-bit platforms the program is built for. -/
def createNewRef (c : Client σ) (opts : Options) (commitSHA : Option String) :
    Prog σ Call (Option String × Option GoError) := do
  let now ← Prog.read c.github.Now
  let refName := "refs/heads/cpgo-update-" ++ strconv.Itoa now.Unix
  let req : github.Reference := { Ref := some refName, Object := some { SHA := commitSHA } }
  let (ref, err) ←
    Prog.call (c.github.CreateRef opts.Repo.Org opts.Repo.Name req)
      (Call.CreateRef opts.Repo.Org opts.Repo.Name req)
  match err with
  | some err => pure (none, some (.wrapf "github.Git.CreateRef: " (.lib err)))
  | none => do
    let ref ← Prog.deref ref
    pure (ref.Ref, none)

/-- Go `Client.openPullRequest`. -/
def openPullRequest (c : Client σ) (opts : Options) (prRef mainRef : String) :
    Prog σ Call (String × Option GoError) := do
  let refsPrefix := "refs/heads/"
  let head := (strings.CutPrefix prRef refsPrefix).1
  let base := (strings.CutPrefix mainRef refsPrefix).1
  let now ← Prog.read c.github.Now
  let title := "Update PGO file [" ++ now.RFC3339 ++ "]"
  let body :=
    "This pull request updates the PGO file with newer traces.\nFeel free to merge or close it."
  let req : github.NewPullRequest :=
    { Title := some title, Head := some head, Base := some base, Body := some body }
  let (pr, err) ←
    Prog.call (c.github.CreatePullRequest opts.Repo.Org opts.Repo.Name req)
      (Call.CreatePullRequest opts.Repo.Org opts.Repo.Name req)
  match err with
  | some err => pure ("", some (.wrapf "github.PullRequests.Create: " (.lib err)))
  | none => do
    let pr ← Prog.deref pr
    let htmlURL ← Prog.deref pr.HTMLURL
    pure (htmlURL, none)

/-- Go `Client.UpdatePGOFile`. -/
def UpdatePGOFile (c : Client σ) (opts : Options) (fileContent : List UInt8) :
    Prog σ Call (String × Option GoError) := do
  let (blobSHA, err) ← c.createBlob opts fileContent
  match err with
  | some err => pure ("", some (.wrapf "createBlob: " err))
  | none => do
    let (mainBranchRef, err) ← c.findMainBranchRef opts
    match err with
    | some err => pure ("", some (.wrapf "findMainBranchRef: " err))
    | none => do
      let blobSHA ← Prog.deref blobSHA
      let mainBranchRef ← Prog.deref mainBranchRef
      let object ← Prog.deref mainBranchRef.Object
      let mainSHA ← Prog.deref object.SHA
      let (tree, err) ← c.createTree opts blobSHA mainSHA
      match err with
      | some err => pure ("", some (.wrapf "createTree: " err))
      | none => do
        let (commitSHA, err) ← c.commitFile opts tree mainSHA
        match err with
        | some err => pure ("", some (.wrapf "commitFile: " err))
        | none => do
          let (prRef, err) ← c.createNewRef opts commitSHA
          match err with
          | some err => pure ("", some (.wrapf "createNewRef: " err))
          | none => do
            let prRef ← Prog.deref prRef
            let mainRefName ← Prog.deref mainBranchRef.Ref
            let (prURL, err) ← c.openPullRequest opts prRef mainRefName
            match err with
            | some err => pure ("", some (.wrapf "openPullRequest: " err))
            | none => pure (prURL, none)

end Client

/-! ## net/http, io and the pprof codec -/

namespace http

/-- Go `http.Request`, as built by `http.NewRequestWithContext(ctx, method, url, nil)`. -/
structure Request where
  Method : String
  URL : String
  deriving DecidableEq, Repr

/-- Go `http.Response`: status code and the bytes readable from `Body`. -/
structure Response where
  StatusCode : Int
  Body : List UInt8
  deriving DecidableEq, Repr

/-- Go `*http.Client`.  `Do` is a transition of the remote state.  `parseURL` is the check that
`http.NewRequestWithContext` makes on its URL (`url.Parse`), carried here. -/
structure Client (σ : Type) where
  parseURL : String → Option LibError
  Do : Request → σ → (Option Response × Option LibError) × σ

/-- Go `http.NewRequestWithContext(ctx, method, url, nil)`: a request for `url`, or the error of
parsing `url`. -/
def Client.NewRequestWithContext {σ : Type} (client : Client σ) (method url : String) :
    Option Request × Option LibError :=
  match client.parseURL url with
  | some err => (none, some err)
  | none => (some { Method := method, URL := url }, none)

/-- Go `http.MethodGet`. -/
def MethodGet : String :=
  "GET"

end http

namespace io

/-- Go `io.Writer` over a sink of state `ω`: `Write` answers the number of bytes written and an
error. -/
structure Writer (ω : Type) where
  Write : List UInt8 → ω → (Nat × Option LibError) × ω

end io

namespace bytes

/-- Go `bytes.Buffer` as an `io.Writer`: `Write` appends and never fails; `Bytes()` is the state
itself. -/
def Buffer : io.Writer (List UInt8) :=
  { Write := fun p b => ((p.length, none), b ++ p) }

end bytes

namespace profile

/-- The codec of `github.com/google/pprof/profile` over its profile type `P`: `Parse`, `Merge`
and the uncompressed wire encoding (`serialize`), which `WriteUncompressed` writes with a single
`Write`. -/
structure Codec (P : Type) where
  Parse : List UInt8 → Option P × Option LibError
  Merge : List (Option P) → Option P × Option LibError
  serialize : P → List UInt8

end profile

/-- A call made by `pprof.MergeProfiles`: the codec's merge, or a write to `w`. -/
inductive PprofCall (P : Type) where
  | Merge (profiles : List (Option P)) (res : Option P × Option LibError)
  | Write (p : List UInt8) (res : Nat × Option LibError)

/-- A call made by `Fetcher.FromURL`. -/
inductive HttpCall where
  | Do (req : http.Request) (res : Option http.Response × Option LibError)
  deriving DecidableEq, Repr

/-! ## `internal/pprof` -/

namespace pprof

variable {σ ω P : Type}

/-- Go `pprof.Fetcher`. -/
structure Fetcher (σ : Type) where
  client : http.Client σ

/-- Go `pprof.NewFetcher`. -/
def NewFetcher (client : http.Client σ) : Fetcher σ :=
  { client := client }

/-- Go `Fetcher.FromURL`. -/
def Fetcher.FromURL (f : Fetcher σ) (codec : profile.Codec P) (url : String) :
    Prog σ HttpCall (Option P × Option GoError) := do
  let (req, err) := f.client.NewRequestWithContext http.MethodGet url
  match err with
  | some err => pure (none, some (.wrapf "http.NewRequestWithContext: " (.lib err)))
  | none => do
    let req ← Prog.deref req
    let (resp, err) ← Prog.call (f.client.Do req) (HttpCall.Do req)
    match err with
    | some err => pure (none, some (.wrapf "client.Do: " (.lib err)))
    | none => do
      let resp ← Prog.deref resp
      let (prof, err) := codec.Parse resp.Body
      match err with
      | some err => pure (none, some (.wrapf "profile.Parse: " (.lib err)))
      | none => pure (prof, none)

/-- Go `pprof.MergeProfiles`, over the sink `w` of state `ω`. -/
def MergeProfiles (codec : profile.Codec P) (w : io.Writer ω) (profiles : List (Option P)) :
    Prog ω (PprofCall P) (Option GoError) := do
  let (mergedProfile, err) ←
    Prog.call (fun b => (codec.Merge profiles, b)) (PprofCall.Merge profiles)
  match err with
  | some err => pure (some (.wrapf "profile.Merge: " (.lib err)))
  | none => do
    let mergedProfile ← Prog.deref mergedProfile
    let (_, err) ←
      Prog.call (w.Write (codec.serialize mergedProfile))
        (PprofCall.Write (codec.serialize mergedProfile))
    match err with
    | some err => pure (some (.wrapf "mergedProfile.WriteUncompressed: " (.lib err)))
    | none => pure none

end pprof

/-! ## `internal/config` and `cmd/cpgo` -/

namespace config

/-- Go `config.OpenPR`. -/
structure OpenPR where
  Repo : String
  TargetFile : String
  TargetBranch : String
  deriving DecidableEq, Repr

/-- Go `config.Backend`. -/
structure Backend where
  URL : String
  Schedule : String
  OpenPR : OpenPR
  deriving DecidableEq, Repr

end config

/-- What `run` does to the outside, in order. -/
inductive Event (P : Type) where
  | http (c : HttpCall)
  | github (c : Call)
  | pprof (c : PprofCall P)

/-- Lines 127 to 142 of `run`: merge `profiles` into a fresh `bytes.Buffer` and publish its
bytes. -/
def mergeAndPublish {σ P : Type} (codec : profile.Codec P) (ghClient : Client σ) (opts : Options)
    (profiles : List (Option P)) : Prog σ (Event P) (Option GoError) := do
  let (err, b) ←
    Prog.withBuffer ([] : List UInt8) Event.pprof (pprof.MergeProfiles codec bytes.Buffer profiles)
  match err with
  | some err => pure (some (.wrapf "pprof.MergeProfiles: " err))
  | none => do
    let (_, err) ← Prog.mapCalls Event.github (ghClient.UpdatePGOFile opts b)
    match err with
    | some err => pure (some (.wrapf "ghClient.UpdatePGOFile: " err))
    | none => pure none

/-- Lines 114 to 142 of `run`: with the new profile in hand and the lookup settled, fetch the
existing profile when `downloadURL` is not empty, then merge and publish. -/
def collectAndPublish {σ P : Type} (DefaultClient : http.Client σ) (codec : profile.Codec P)
    (ghClient : Client σ) (opts : Options) (newProfile : Option P) (downloadURL : String) :
    Prog σ (Event P) (Option GoError) :=
  if downloadURL ≠ "" then do
    let (existingProfile, err) ←
      Prog.mapCalls Event.http ((pprof.NewFetcher DefaultClient).FromURL codec downloadURL)
    match err with
    | some err => pure (some (.wrapf "profileFetcher.FromURL: " err))
    | none => mergeAndPublish codec ghClient opts [newProfile, existingProfile]
  else mergeAndPublish codec ghClient opts [newProfile]

/-- Go `run` of `cmd/cpgo/main.go`.  `DefaultClient` is `http.DefaultClient`; `codec` the pprof
codec.  The log lines are not modelled, except that the first one reads a field of
`newProfile`. -/
def run {σ P : Type} (DefaultClient : http.Client σ) (codec : profile.Codec P)
    (backend : config.Backend) (ghClient : Client σ) : Prog σ (Event P) (Option GoError) := do
  let ghRepo := ParseRepoURL backend.OpenPR.Repo
  let profileFetcher := pprof.NewFetcher DefaultClient
  let (newProfile, err) ← Prog.mapCalls Event.http (profileFetcher.FromURL codec backend.URL)
  match err with
  | some err => pure (some (.wrapf "profileFetcher.FromURL: " err))
  | none => do
    let _ ← Prog.deref newProfile
    let opts : Options :=
      { Repo := ghRepo, Filename := backend.OpenPR.TargetFile,
        MainBranch := backend.OpenPR.TargetBranch }
    let (downloadURL, err) ← Prog.mapCalls Event.github (ghClient.ExistingPGOFileURL opts)
    match err with
    | some err =>
      if !GoError.Is err .ErrPGOFileNotFound then
        pure (some (.wrapf "ghClient.ExistingPGOFileURL: " err))
      else collectAndPublish DefaultClient codec ghClient opts newProfile downloadURL
    | none => collectAndPublish DefaultClient codec ghClient opts newProfile downloadURL

/-! ## Concrete remote sides

A scripted remote side answers each kind of call with a fixed answer and has no state; the
scenarios below are those of the test suite of the repository. -/

/-- The fixed answers of a scripted GitHub. -/
structure Script where
  getContents : github.GetContentsResult
  createBlob : Option github.Blob × Option LibError
  listMatchingRefs : List (Option github.Reference) × Option LibError
  createTree : Option github.Tree × Option LibError
  createCommit : Option github.Commit × Option LibError
  createRef : Option github.Reference × Option LibError
  createPullRequest : Option github.PullRequest × Option LibError
  now : Time

/-- The client of a scripted GitHub. -/
def Script.client (a : Script) : Client Unit :=
  { github :=
      { GetContents := fun _ _ _ _ s => (a.getContents, s)
        CreateBlob := fun _ _ _ s => (a.createBlob, s)
        ListMatchingRefs := fun _ _ _ s => (a.listMatchingRefs, s)
        CreateTree := fun _ _ _ _ s => (a.createTree, s)
        CreateCommit := fun _ _ _ s => (a.createCommit, s)
        CreateRef := fun _ _ _ s => (a.createRef, s)
        CreatePullRequest := fun _ _ _ s => (a.createPullRequest, s)
        Now := fun s => (a.now, s) } }

/-- The options of the test suite. -/
def testOpts : Options :=
  { Repo := { Org := "my-org", Name := "my-repo" }, Filename := "default.pgo",
    MainBranch := "main" }

/-- An error answer of the remote side, such as the one go-github builds from a status 500. -/
def remoteErr : LibError :=
  { id := 1, msg := "500 this is fine" }

/-- The scenario in which every call succeeds (the `mockValid...` handlers of
`client_test.go`). -/
def happy : Script :=
  { getContents :=
      (some { DownloadURL := some "https://github.com/my-org/my-repo/blob/main/default.pgo" },
        some { StatusCode := 200 }, none)
    createBlob :=
      (some { Content := none, Encoding := none, SHA := some "definitely-a-valid-blob-sha" }, none)
    listMatchingRefs :=
      ([some { Ref := some "refs/heads/main", Object := some { SHA := some "another-very-real-sha" } }],
        none)
    createTree := (some { SHA := none, Entries := [] }, none)
    createCommit :=
      (some { SHA := some "new-commit-sha", Author := none, Message := none, Tree := none,
              Parents := [] }, none)
    createRef := (some { Ref := some "new-ref-sha", Object := none }, none)
    createPullRequest := (some { HTMLURL := some "https://github.com/my-org/my-repo/pulls/1" }, none)
    now := { Unix := 1700000000, RFC3339 := "2023-11-14T22:13:20Z" } }

/-- The scenario in which the tree cannot be created (test "when there is a problem creating the
new tree"). -/
def treeFails : Script :=
  { happy with createTree := (none, some remoteErr) }

/-- The failed call of scenario `treeFails`. -/
def treeFailsCall : Call :=
  .CreateTree "my-org" "my-repo" "another-very-real-sha"
    [some { SHA := some "definitely-a-valid-blob-sha", Path := some "default.pgo",
            Mode := some "100644", EntryType := some "blob" }]
    (none, some remoteErr)

/-- The scenario in which the contents lookup fails without any response (a transport failure,
or a cancelled context): go-github answers an error and a nil `*Response`. -/
def transportFails : Script :=
  { happy with getContents := (none, none, some { id := 3, msg := "context canceled" }) }

/-- The options of the test suite with another base branch. -/
def releaseOpts : Options :=
  { testOpts with MainBranch := "release" }

/-- The reading of the specification for the contents lookup: every lookup issued by
`ExistingPGOFileURL` is qualified with the ref `opts.MainBranch`. -/
def LookupQualifiedWithBranch {σ : Type} (c : Client σ) (opts : Options) (s : σ) : Prop :=
  ∀ call ∈ (c.ExistingPGOFileURL opts s).calls,
    ∃ owner repo path res,
      call = Call.GetContents owner repo path (some { Ref := opts.MainBranch }) res

/-- A stand-in codec, used only to show that the hypotheses of the properties of `run` can be met:
a profile is its own encoding, the empty input is malformed, and merging concatenates.  It is not
the codec of pprof, and no property of the program is drawn from it. -/
def bytesCodec : profile.Codec (List UInt8) :=
  { Parse := fun body =>
      if body = [] then (none, some { id := 10, msg := "decoding profile: empty input" })
      else (some body, none)
    Merge := fun profiles => (some (profiles.filterMap id).flatten, none)
    serialize := fun p => p }

/-- An HTTP client whose every request is answered with the given status and body. -/
def fixedResponse (status : Int) (body : List UInt8) : http.Client Unit :=
  { parseURL := fun _ => none
    Do := fun _ s => ((some { StatusCode := status, Body := body }, none), s) }

/-- The backend of the end-to-end scenarios. -/
def testBackend : config.Backend :=
  { URL := "http://localhost:6060/debug/pprof/profile?seconds=30", Schedule := "0 * * * *",
    OpenPR :=
      { Repo := "http://github.com/example/example", TargetFile := "default.pgo",
        TargetBranch := "main" } }

/-! ## The steps of `UpdatePGOFile` as seen in the record of calls -/

namespace Client

/-- The blob sent by `createBlob`. -/
def blobRequest (fileContent : List UInt8) : github.Blob :=
  { Content := some (base64.EncodeToString fileContent), Encoding := some "base64", SHA := none }

/-- The single tree entry sent by `createTree`. -/
def treeEntry (opts : Options) (blobSHA : String) : github.TreeEntry :=
  { SHA := some blobSHA, EntryType := some "blob", Mode := some "100644",
    Path := some opts.Filename }

/-- The commit sent by `commitFile`. -/
def commitRequest (tree : Option github.Tree) (mainRef : String) (now : Time) : github.Commit :=
  { SHA := none
    Tree := tree
    Message := some "chore: update PGO file with new traces"
    Author := some
      { Name := some "CPGO Automatic Updates", Email := some "example@example.com",
        Date := some { Time := now } }
    Parents := [some { SHA := some mainRef }] }

/-- The ref sent by `createNewRef`. -/
def refRequest (commitSHA : Option String) (now : Time) : github.Reference :=
  { Ref := some ("refs/heads/cpgo-update-" ++ strconv.Itoa now.Unix),
    Object := some { SHA := commitSHA } }

/-- The pull request sent by `openPullRequest`. -/
def pullRequest (prRef mainRef : String) (now : Time) : github.NewPullRequest :=
  { Title := some ("Update PGO file [" ++ now.RFC3339 ++ "]"),
    Head := some (strings.CutPrefix prRef "refs/heads/").1,
    Base := some (strings.CutPrefix mainRef "refs/heads/").1,
    Body := some
      "This pull request updates the PGO file with newer traces.\nFeel free to merge or close it." }

end Client

/-- The condition of the specification on a listed ref: it is present, it has a name, and its
name ends with the configured base branch name. -/
def IsBaseBranchRef (opts : Options) (ref : Option github.Reference) : Prop :=
  ∃ r name, ref = some r ∧ r.Ref = some name ∧ ∃ p : String, name = p ++ opts.MainBranch

/-! ### The executions of `UpdatePGOFile`, case by case

`UpdateRun c opts content s e` lists the possible executions `e` of `UpdatePGOFile` from the remote
state `s`, one constructor per exit of the function: each premise is an answer of the remote side
or a field of an answer, in the order in which the source reads them.  Theorem
`Client.UpdatePGOFile_run` shows that the execution of the embedded function is one of these. -/

/-- The exits of `UpdatePGOFile`. -/
inductive UpdateRun {σ : Type} (c : Client σ) (opts : Options) (content : List UInt8) (s : σ) :
    Exec σ Call (String × Option GoError) → Prop
  /-- The call `CreateBlob` answers an error. -/
  | blobError {blob : Option github.Blob} {err : LibError} {s₁ : σ}
      (hb : c.github.CreateBlob opts.Repo.Org opts.Repo.Name (Client.blobRequest content) s
        = ((blob, some err), s₁)) :
      UpdateRun c opts content s
        ⟨.ret ("", some (.wrapf "createBlob: " (.wrapf "github.Git.CreateBlob: " (.lib err)))), s₁,
          [.CreateBlob opts.Repo.Org opts.Repo.Name (Client.blobRequest content) (blob, some err)]⟩
  /-- The call `CreateBlob` answers neither an error nor a blob. -/
  | blobNil {s₁ : σ}
      (hb : c.github.CreateBlob opts.Repo.Org opts.Repo.Name (Client.blobRequest content) s
        = ((none, none), s₁)) :
      UpdateRun c opts content s
        ⟨.nilDeref, s₁,
          [.CreateBlob opts.Repo.Org opts.Repo.Name (Client.blobRequest content) (none, none)]⟩
  /-- The call `ListMatchingRefs` answers an error. -/
  | refsError {blob : github.Blob} {refs : List (Option github.Reference)} {err : LibError}
      {s₁ s₂ : σ}
      (hb : c.github.CreateBlob opts.Repo.Org opts.Repo.Name (Client.blobRequest content) s
        = ((some blob, none), s₁))
      (hl : c.github.ListMatchingRefs opts.Repo.Org opts.Repo.Name none s₁
        = ((refs, some err), s₂)) :
      UpdateRun c opts content s
        ⟨.ret ("", some (.wrapf "findMainBranchRef: " (.wrapf "github.Git.ListMatchingRefs: " (.lib err)))), s₂,
          [.CreateBlob opts.Repo.Org opts.Repo.Name (Client.blobRequest content) (some blob, none),
           .ListMatchingRefs opts.Repo.Org opts.Repo.Name none (refs, some err)]⟩
  /-- The refs are listed and the loop finds no match. -/
  | refNotFound {blob : github.Blob} {refs : List (Option github.Reference)} {s₁ s₂ : σ}
      (hb : c.github.CreateBlob opts.Repo.Org opts.Repo.Name (Client.blobRequest content) s
        = ((some blob, none), s₁))
      (hl : c.github.ListMatchingRefs opts.Repo.Org opts.Repo.Name none s₁
        = ((refs, none), s₂))
      (hf : Client.findRefLoop opts refs = none) :
      UpdateRun c opts content s
        ⟨.ret ("", some (.wrapf "findMainBranchRef: "
            (.errorf ("could not find ref for branch " ++ opts.MainBranch)))), s₂,
          [.CreateBlob opts.Repo.Org opts.Repo.Name (Client.blobRequest content) (some blob, none),
           .ListMatchingRefs opts.Repo.Org opts.Repo.Name none (refs, none)]⟩
  /-- The blob has no SHA, or the matched ref has no object, or the object has no SHA. -/
  | baseNil {blob : github.Blob} {refs : List (Option github.Reference)} {ref : github.Reference} {s₁ s₂ : σ}
      (hb : c.github.CreateBlob opts.Repo.Org opts.Repo.Name (Client.blobRequest content) s
        = ((some blob, none), s₁))
      (hl : c.github.ListMatchingRefs opts.Repo.Org opts.Repo.Name none s₁
        = ((refs, none), s₂))
      (hf : Client.findRefLoop opts refs = some ref)
      (hnil : blob.SHA = none ∨ ref.Object = none ∨ ref.Object = some { SHA := none }) :
      UpdateRun c opts content s
        ⟨.nilDeref, s₂,
          [.CreateBlob opts.Repo.Org opts.Repo.Name (Client.blobRequest content) (some blob, none),
           .ListMatchingRefs opts.Repo.Org opts.Repo.Name none (refs, none)]⟩
  /-- The call `CreateTree` answers an error. -/
  | treeError {blob : github.Blob} {refs : List (Option github.Reference)} {ref : github.Reference}
      {blobSHA mainSHA : String} {tree : Option github.Tree} {err : LibError}
      {s₁ s₂ s₃ : σ}
      (hb : c.github.CreateBlob opts.Repo.Org opts.Repo.Name (Client.blobRequest content) s
        = ((some blob, none), s₁))
      (hl : c.github.ListMatchingRefs opts.Repo.Org opts.Repo.Name none s₁
        = ((refs, none), s₂))
      (hf : Client.findRefLoop opts refs = some ref)
      (hbs : blob.SHA = some blobSHA) (hms : ref.Object = some { SHA := some mainSHA })
      (ht : c.github.CreateTree opts.Repo.Org opts.Repo.Name mainSHA
        [some (Client.treeEntry opts blobSHA)] s₂ = ((tree, some err), s₃)) :
      UpdateRun c opts content s
        ⟨.ret ("", some (.wrapf "createTree: " (.wrapf "github.Git.CreateTree: " (.lib err)))), s₃,
          [.CreateBlob opts.Repo.Org opts.Repo.Name (Client.blobRequest content) (some blob, none),
           .ListMatchingRefs opts.Repo.Org opts.Repo.Name none (refs, none),
           .CreateTree opts.Repo.Org opts.Repo.Name mainSHA [some (Client.treeEntry opts blobSHA)]
             (tree, some err)]⟩
  /-- The call `CreateCommit` answers an error. -/
  | commitError {blob : github.Blob} {refs : List (Option github.Reference)} {ref : github.Reference}
      {blobSHA mainSHA : String} {tree : Option github.Tree}
      {commit : Option github.Commit} {err : LibError} {s₁ s₂ s₃ s₄ : σ}
      (hb : c.github.CreateBlob opts.Repo.Org opts.Repo.Name (Client.blobRequest content) s
        = ((some blob, none), s₁))
      (hl : c.github.ListMatchingRefs opts.Repo.Org opts.Repo.Name none s₁
        = ((refs, none), s₂))
      (hf : Client.findRefLoop opts refs = some ref)
      (hbs : blob.SHA = some blobSHA) (hms : ref.Object = some { SHA := some mainSHA })
      (ht : c.github.CreateTree opts.Repo.Org opts.Repo.Name mainSHA
        [some (Client.treeEntry opts blobSHA)] s₂ = ((tree, none), s₃))
      (hc : c.github.CreateCommit opts.Repo.Org opts.Repo.Name
        (Client.commitRequest tree mainSHA (c.github.Now s₃).1) (c.github.Now s₃).2
        = ((commit, some err), s₄)) :
      UpdateRun c opts content s
        ⟨.ret ("", some (.wrapf "commitFile: " (.wrapf "github.Git.CreateCommit: " (.lib err)))), s₄,
          [.CreateBlob opts.Repo.Org opts.Repo.Name (Client.blobRequest content) (some blob, none),
           .ListMatchingRefs opts.Repo.Org opts.Repo.Name none (refs, none),
           .CreateTree opts.Repo.Org opts.Repo.Name mainSHA [some (Client.treeEntry opts blobSHA)]
             (tree, none),
           .CreateCommit opts.Repo.Org opts.Repo.Name
             (Client.commitRequest tree mainSHA (c.github.Now s₃).1) (commit, some err)]⟩
  /-- The call `CreateCommit` answers neither an error nor a commit. -/
  | commitNil {blob : github.Blob} {refs : List (Option github.Reference)} {ref : github.Reference}
      {blobSHA mainSHA : String} {tree : Option github.Tree} {s₁ s₂ s₃ s₄ : σ}
      (hb : c.github.CreateBlob opts.Repo.Org opts.Repo.Name (Client.blobRequest content) s
        = ((some blob, none), s₁))
      (hl : c.github.ListMatchingRefs opts.Repo.Org opts.Repo.Name none s₁
        = ((refs, none), s₂))
      (hf : Client.findRefLoop opts refs = some ref)
      (hbs : blob.SHA = some blobSHA) (hms : ref.Object = some { SHA := some mainSHA })
      (ht : c.github.CreateTree opts.Repo.Org opts.Repo.Name mainSHA
        [some (Client.treeEntry opts blobSHA)] s₂ = ((tree, none), s₃))
      (hc : c.github.CreateCommit opts.Repo.Org opts.Repo.Name
        (Client.commitRequest tree mainSHA (c.github.Now s₃).1) (c.github.Now s₃).2
        = ((none, none), s₄)) :
      UpdateRun c opts content s
        ⟨.nilDeref, s₄,
          [.CreateBlob opts.Repo.Org opts.Repo.Name (Client.blobRequest content) (some blob, none),
           .ListMatchingRefs opts.Repo.Org opts.Repo.Name none (refs, none),
           .CreateTree opts.Repo.Org opts.Repo.Name mainSHA [some (Client.treeEntry opts blobSHA)]
             (tree, none),
           .CreateCommit opts.Repo.Org opts.Repo.Name
             (Client.commitRequest tree mainSHA (c.github.Now s₃).1) (none, none)]⟩
  /-- The call `CreateRef` answers an error. -/
  | refError {blob : github.Blob} {refs : List (Option github.Reference)} {ref : github.Reference}
      {blobSHA mainSHA : String} {tree : Option github.Tree} {commit : github.Commit}
      {newRef : Option github.Reference} {err : LibError} {s₁ s₂ s₃ s₄ s₅ : σ}
      (hb : c.github.CreateBlob opts.Repo.Org opts.Repo.Name (Client.blobRequest content) s
        = ((some blob, none), s₁))
      (hl : c.github.ListMatchingRefs opts.Repo.Org opts.Repo.Name none s₁
        = ((refs, none), s₂))
      (hf : Client.findRefLoop opts refs = some ref)
      (hbs : blob.SHA = some blobSHA) (hms : ref.Object = some { SHA := some mainSHA })
      (ht : c.github.CreateTree opts.Repo.Org opts.Repo.Name mainSHA
        [some (Client.treeEntry opts blobSHA)] s₂ = ((tree, none), s₃))
      (hc : c.github.CreateCommit opts.Repo.Org opts.Repo.Name
        (Client.commitRequest tree mainSHA (c.github.Now s₃).1) (c.github.Now s₃).2
        = ((some commit, none), s₄))
      (hr : c.github.CreateRef opts.Repo.Org opts.Repo.Name
        (Client.refRequest commit.SHA (c.github.Now s₄).1) (c.github.Now s₄).2
        = ((newRef, some err), s₅)) :
      UpdateRun c opts content s
        ⟨.ret ("", some (.wrapf "createNewRef: " (.wrapf "github.Git.CreateRef: " (.lib err)))), s₅,
          [.CreateBlob opts.Repo.Org opts.Repo.Name (Client.blobRequest content) (some blob, none),
           .ListMatchingRefs opts.Repo.Org opts.Repo.Name none (refs, none),
           .CreateTree opts.Repo.Org opts.Repo.Name mainSHA [some (Client.treeEntry opts blobSHA)]
             (tree, none),
           .CreateCommit opts.Repo.Org opts.Repo.Name
             (Client.commitRequest tree mainSHA (c.github.Now s₃).1) (some commit, none),
           .CreateRef opts.Repo.Org opts.Repo.Name
             (Client.refRequest commit.SHA (c.github.Now s₄).1) (newRef, some err)]⟩
  /-- The call `CreateRef` answers neither an error nor a ref. -/
  | refNil {blob : github.Blob} {refs : List (Option github.Reference)} {ref : github.Reference}
      {blobSHA mainSHA : String} {tree : Option github.Tree} {commit : github.Commit} {s₁ s₂ s₃ s₄ s₅ : σ}
      (hb : c.github.CreateBlob opts.Repo.Org opts.Repo.Name (Client.blobRequest content) s
        = ((some blob, none), s₁))
      (hl : c.github.ListMatchingRefs opts.Repo.Org opts.Repo.Name none s₁
        = ((refs, none), s₂))
      (hf : Client.findRefLoop opts refs = some ref)
      (hbs : blob.SHA = some blobSHA) (hms : ref.Object = some { SHA := some mainSHA })
      (ht : c.github.CreateTree opts.Repo.Org opts.Repo.Name mainSHA
        [some (Client.treeEntry opts blobSHA)] s₂ = ((tree, none), s₃))
      (hc : c.github.CreateCommit opts.Repo.Org opts.Repo.Name
        (Client.commitRequest tree mainSHA (c.github.Now s₃).1) (c.github.Now s₃).2
        = ((some commit, none), s₄))
      (hr : c.github.CreateRef opts.Repo.Org opts.Repo.Name
        (Client.refRequest commit.SHA (c.github.Now s₄).1) (c.github.Now s₄).2
        = ((none, none), s₅)) :
      UpdateRun c opts content s
        ⟨.nilDeref, s₅,
          [.CreateBlob opts.Repo.Org opts.Repo.Name (Client.blobRequest content) (some blob, none),
           .ListMatchingRefs opts.Repo.Org opts.Repo.Name none (refs, none),
           .CreateTree opts.Repo.Org opts.Repo.Name mainSHA [some (Client.treeEntry opts blobSHA)]
             (tree, none),
           .CreateCommit opts.Repo.Org opts.Repo.Name
             (Client.commitRequest tree mainSHA (c.github.Now s₃).1) (some commit, none),
           .CreateRef opts.Repo.Org opts.Repo.Name
             (Client.refRequest commit.SHA (c.github.Now s₄).1) (none, none)]⟩
  /-- The created ref has no name. -/
  | refNameNil {blob : github.Blob} {refs : List (Option github.Reference)} {ref : github.Reference}
      {blobSHA mainSHA : String} {tree : Option github.Tree} {commit : github.Commit}
      {newRef : github.Reference} {s₁ s₂ s₃ s₄ s₅ : σ}
      (hb : c.github.CreateBlob opts.Repo.Org opts.Repo.Name (Client.blobRequest content) s
        = ((some blob, none), s₁))
      (hl : c.github.ListMatchingRefs opts.Repo.Org opts.Repo.Name none s₁
        = ((refs, none), s₂))
      (hf : Client.findRefLoop opts refs = some ref)
      (hbs : blob.SHA = some blobSHA) (hms : ref.Object = some { SHA := some mainSHA })
      (ht : c.github.CreateTree opts.Repo.Org opts.Repo.Name mainSHA
        [some (Client.treeEntry opts blobSHA)] s₂ = ((tree, none), s₃))
      (hc : c.github.CreateCommit opts.Repo.Org opts.Repo.Name
        (Client.commitRequest tree mainSHA (c.github.Now s₃).1) (c.github.Now s₃).2
        = ((some commit, none), s₄))
      (hr : c.github.CreateRef opts.Repo.Org opts.Repo.Name
        (Client.refRequest commit.SHA (c.github.Now s₄).1) (c.github.Now s₄).2
        = ((some newRef, none), s₅))
      (hnil : newRef.Ref = none) :
      UpdateRun c opts content s
        ⟨.nilDeref, s₅,
          [.CreateBlob opts.Repo.Org opts.Repo.Name (Client.blobRequest content) (some blob, none),
           .ListMatchingRefs opts.Repo.Org opts.Repo.Name none (refs, none),
           .CreateTree opts.Repo.Org opts.Repo.Name mainSHA [some (Client.treeEntry opts blobSHA)]
             (tree, none),
           .CreateCommit opts.Repo.Org opts.Repo.Name
             (Client.commitRequest tree mainSHA (c.github.Now s₃).1) (some commit, none),
           .CreateRef opts.Repo.Org opts.Repo.Name
             (Client.refRequest commit.SHA (c.github.Now s₄).1) (some newRef, none)]⟩
  /-- The call `PullRequests.Create` answers an error. -/
  | pullRequestError {blob : github.Blob} {refs : List (Option github.Reference)} {ref : github.Reference}
      {blobSHA mainSHA : String} {tree : Option github.Tree} {commit : github.Commit}
      {newRef : github.Reference} {prRef mainRefName : String}
      {pr : Option github.PullRequest} {err : LibError} {s₁ s₂ s₃ s₄ s₅ s₆ : σ}
      (hb : c.github.CreateBlob opts.Repo.Org opts.Repo.Name (Client.blobRequest content) s
        = ((some blob, none), s₁))
      (hl : c.github.ListMatchingRefs opts.Repo.Org opts.Repo.Name none s₁
        = ((refs, none), s₂))
      (hf : Client.findRefLoop opts refs = some ref)
      (hbs : blob.SHA = some blobSHA) (hms : ref.Object = some { SHA := some mainSHA })
      (ht : c.github.CreateTree opts.Repo.Org opts.Repo.Name mainSHA
        [some (Client.treeEntry opts blobSHA)] s₂ = ((tree, none), s₃))
      (hc : c.github.CreateCommit opts.Repo.Org opts.Repo.Name
        (Client.commitRequest tree mainSHA (c.github.Now s₃).1) (c.github.Now s₃).2
        = ((some commit, none), s₄))
      (hr : c.github.CreateRef opts.Repo.Org opts.Repo.Name
        (Client.refRequest commit.SHA (c.github.Now s₄).1) (c.github.Now s₄).2
        = ((some newRef, none), s₅))
      (hpr : newRef.Ref = some prRef) (hmr : ref.Ref = some mainRefName)
      (hp : c.github.CreatePullRequest opts.Repo.Org opts.Repo.Name
        (Client.pullRequest prRef mainRefName (c.github.Now s₅).1) (c.github.Now s₅).2
        = ((pr, some err), s₆)) :
      UpdateRun c opts content s
        ⟨.ret ("", some (.wrapf "openPullRequest: " (.wrapf "github.PullRequests.Create: " (.lib err)))), s₆,
          [.CreateBlob opts.Repo.Org opts.Repo.Name (Client.blobRequest content) (some blob, none),
           .ListMatchingRefs opts.Repo.Org opts.Repo.Name none (refs, none),
           .CreateTree opts.Repo.Org opts.Repo.Name mainSHA [some (Client.treeEntry opts blobSHA)]
             (tree, none),
           .CreateCommit opts.Repo.Org opts.Repo.Name
             (Client.commitRequest tree mainSHA (c.github.Now s₃).1) (some commit, none),
           .CreateRef opts.Repo.Org opts.Repo.Name
             (Client.refRequest commit.SHA (c.github.Now s₄).1) (some newRef, none),
           .CreatePullRequest opts.Repo.Org opts.Repo.Name
             (Client.pullRequest prRef mainRefName (c.github.Now s₅).1) (pr, some err)]⟩
  /-- The call `PullRequests.Create` answers no error and no pull request, or one without HTML URL. -/
  | pullRequestNil {blob : github.Blob} {refs : List (Option github.Reference)} {ref : github.Reference}
      {blobSHA mainSHA : String} {tree : Option github.Tree} {commit : github.Commit}
      {newRef : github.Reference} {prRef mainRefName : String}
      {pr : Option github.PullRequest} {s₁ s₂ s₃ s₄ s₅ s₆ : σ}
      (hb : c.github.CreateBlob opts.Repo.Org opts.Repo.Name (Client.blobRequest content) s
        = ((some blob, none), s₁))
      (hl : c.github.ListMatchingRefs opts.Repo.Org opts.Repo.Name none s₁
        = ((refs, none), s₂))
      (hf : Client.findRefLoop opts refs = some ref)
      (hbs : blob.SHA = some blobSHA) (hms : ref.Object = some { SHA := some mainSHA })
      (ht : c.github.CreateTree opts.Repo.Org opts.Repo.Name mainSHA
        [some (Client.treeEntry opts blobSHA)] s₂ = ((tree, none), s₃))
      (hc : c.github.CreateCommit opts.Repo.Org opts.Repo.Name
        (Client.commitRequest tree mainSHA (c.github.Now s₃).1) (c.github.Now s₃).2
        = ((some commit, none), s₄))
      (hr : c.github.CreateRef opts.Repo.Org opts.Repo.Name
        (Client.refRequest commit.SHA (c.github.Now s₄).1) (c.github.Now s₄).2
        = ((some newRef, none), s₅))
      (hpr : newRef.Ref = some prRef) (hmr : ref.Ref = some mainRefName)
      (hp : c.github.CreatePullRequest opts.Repo.Org opts.Repo.Name
        (Client.pullRequest prRef mainRefName (c.github.Now s₅).1) (c.github.Now s₅).2
        = ((pr, none), s₆))
      (hnil : pr = none ∨ pr = some { HTMLURL := none }) :
      UpdateRun c opts content s
        ⟨.nilDeref, s₆,
          [.CreateBlob opts.Repo.Org opts.Repo.Name (Client.blobRequest content) (some blob, none),
           .ListMatchingRefs opts.Repo.Org opts.Repo.Name none (refs, none),
           .CreateTree opts.Repo.Org opts.Repo.Name mainSHA [some (Client.treeEntry opts blobSHA)]
             (tree, none),
           .CreateCommit opts.Repo.Org opts.Repo.Name
             (Client.commitRequest tree mainSHA (c.github.Now s₃).1) (some commit, none),
           .CreateRef opts.Repo.Org opts.Repo.Name
             (Client.refRequest commit.SHA (c.github.Now s₄).1) (some newRef, none),
           .CreatePullRequest opts.Repo.Org opts.Repo.Name
             (Client.pullRequest prRef mainRefName (c.github.Now s₅).1) (pr, none)]⟩
  /-- Every call succeeds and the pull request carries its HTML URL. -/
  | done {blob : github.Blob} {refs : List (Option github.Reference)} {ref : github.Reference}
      {blobSHA mainSHA : String} {tree : Option github.Tree} {commit : github.Commit}
      {newRef : github.Reference} {prRef mainRefName : String}
      {htmlURL : String} {s₁ s₂ s₃ s₄ s₅ s₆ : σ}
      (hb : c.github.CreateBlob opts.Repo.Org opts.Repo.Name (Client.blobRequest content) s
        = ((some blob, none), s₁))
      (hl : c.github.ListMatchingRefs opts.Repo.Org opts.Repo.Name none s₁
        = ((refs, none), s₂))
      (hf : Client.findRefLoop opts refs = some ref)
      (hbs : blob.SHA = some blobSHA) (hms : ref.Object = some { SHA := some mainSHA })
      (ht : c.github.CreateTree opts.Repo.Org opts.Repo.Name mainSHA
        [some (Client.treeEntry opts blobSHA)] s₂ = ((tree, none), s₃))
      (hc : c.github.CreateCommit opts.Repo.Org opts.Repo.Name
        (Client.commitRequest tree mainSHA (c.github.Now s₃).1) (c.github.Now s₃).2
        = ((some commit, none), s₄))
      (hr : c.github.CreateRef opts.Repo.Org opts.Repo.Name
        (Client.refRequest commit.SHA (c.github.Now s₄).1) (c.github.Now s₄).2
        = ((some newRef, none), s₅))
      (hpr : newRef.Ref = some prRef) (hmr : ref.Ref = some mainRefName)
      (hp : c.github.CreatePullRequest opts.Repo.Org opts.Repo.Name
        (Client.pullRequest prRef mainRefName (c.github.Now s₅).1) (c.github.Now s₅).2
        = ((some { HTMLURL := some htmlURL }, none), s₆)) :
      UpdateRun c opts content s
        ⟨.ret (htmlURL, none), s₆,
          [.CreateBlob opts.Repo.Org opts.Repo.Name (Client.blobRequest content) (some blob, none),
           .ListMatchingRefs opts.Repo.Org opts.Repo.Name none (refs, none),
           .CreateTree opts.Repo.Org opts.Repo.Name mainSHA [some (Client.treeEntry opts blobSHA)]
             (tree, none),
           .CreateCommit opts.Repo.Org opts.Repo.Name
             (Client.commitRequest tree mainSHA (c.github.Now s₃).1) (some commit, none),
           .CreateRef opts.Repo.Org opts.Repo.Name
             (Client.refRequest commit.SHA (c.github.Now s₄).1) (some newRef, none),
           .CreatePullRequest opts.Repo.Org opts.Repo.Name
             (Client.pullRequest prRef mainRefName (c.github.Now s₅).1) (some { HTMLURL := some htmlURL }, none)]⟩

/-- The six steps of `UpdatePGOFile`, named after the functions that perform them. -/
inductive Step where
  | createBlob
  | findMainBranchRef
  | createTree
  | commitFile
  | createNewRef
  | openPullRequest
  deriving DecidableEq, Repr

/-- The steps in the order of the source. -/
def Step.all : List Step :=
  [.createBlob, .findMainBranchRef, .createTree, .commitFile, .createNewRef, .openPullRequest]

/-- The name of the function performing the step. -/
def Step.name : Step → String
  | .createBlob => "createBlob"
  | .findMainBranchRef => "findMainBranchRef"
  | .createTree => "createTree"
  | .commitFile => "commitFile"
  | .createNewRef => "createNewRef"
  | .openPullRequest => "openPullRequest"

/-- The step that issues a given remote call (none for the contents lookup). -/
def Call.step : Call → Option Step
  | .GetContents .. => none
  | .CreateBlob .. => some .createBlob
  | .ListMatchingRefs .. => some .findMainBranchRef
  | .CreateTree .. => some .createTree
  | .CreateCommit .. => some .commitFile
  | .CreateRef .. => some .createNewRef
  | .CreatePullRequest .. => some .openPullRequest

/-- The error answered by the remote side to a call. -/
def Call.err : Call → Option LibError
  | .GetContents _ _ _ _ res => res.2.2
  | .CreateBlob _ _ _ res => res.2
  | .ListMatchingRefs _ _ _ res => res.2
  | .CreateTree _ _ _ _ res => res.2
  | .CreateCommit _ _ _ res => res.2
  | .CreateRef _ _ _ res => res.2
  | .CreatePullRequest _ _ _ res => res.2

/-- The ref listing succeeded and none of the listed refs matches the base branch. -/
def Call.noRefMatches (opts : Options) : Call → Bool
  | .ListMatchingRefs _ _ _ (refs, none) => refs.all (fun ref => !Client.refMatches opts ref)
  | _ => false

/-- The step of a call failed: the remote side answered an error, or the ref listing succeeded
with no ref matching the base branch. -/
def Call.failed (opts : Options) (call : Call) : Bool :=
  call.err.isSome || call.noRefMatches opts

/-! ## What `run` does, as seen in the record of events -/

/-- The options `run` builds for a backend (lines 103 to 107). -/
def runOptions (backend : config.Backend) : Options :=
  { Repo := ParseRepoURL backend.OpenPR.Repo, Filename := backend.OpenPR.TargetFile,
    MainBranch := backend.OpenPR.TargetBranch }

/-- The URL fetched by an HTTP request of `run`. -/
def Event.fetchedURL {P : Type} : Event P → Option String
  | .http (.Do req _) => some req.URL
  | _ => none

/-- The profiles handed to the merge of the codec. -/
def Event.mergeInput {P : Type} : Event P → Option (List (Option P))
  | .pprof (.Merge profiles _) => some profiles
  | _ => none

/-- The event is a remote call of one of the steps of `UpdatePGOFile`. -/
def Event.isPublish {P : Type} : Event P → Bool
  | .github call => call.step.isSome
  | _ => false

/-- The execution `e` preceded by the calls `pre`. -/
def Exec.after {σ ε α : Type} (pre : List ε) (e : Exec σ ε α) : Exec σ ε α :=
  ⟨e.out, e.world, pre ++ e.calls⟩

/-- The result of `run` after `UpdatePGOFile` has ended with `out` (lines 135 to 142). -/
def publishResult (out : Outcome (String × Option GoError)) : Outcome (Option GoError) :=
  match out with
  | .ret (_, some err) => .ret (some (.wrapf "ghClient.UpdatePGOFile: " err))
  | .ret (_, none) => .ret none
  | .nilDeref => .nilDeref

/-! ## Further words of the specification -/

/-- The string `substr` occurs in `s`. -/
def strings.Occurs (s substr : String) : Prop :=
  ∃ a b : String, s = a ++ substr ++ b

/-- The string `s` ends immediately after the first occurrence of `substr`: it ends with `substr`
and `substr` occurs nowhere earlier. -/
def strings.EndsAfterFirst (s substr : String) : Prop :=
  ∃ a : String, s = a ++ substr ∧ ∀ a' b' : String, s = a' ++ substr ++ b' → b' = ""

/-- The invariant of the specification on a repository identity: organisation and name are not
empty, and the name has no trailing slash. -/
def RepositoryInvariant (r : Repository) : Prop :=
  r.Org ≠ "" ∧ r.Name ≠ "" ∧ strings.HasSuffix r.Name "/" = false

/-- The number written by a sequence of decimal digits. -/
def strconv.decimalValue (cs : List Char) : Nat :=
  cs.foldl (fun acc ch => 10 * acc + (ch.toNat - 48)) 0

/-- The integer written by a decimal numeral with an optional leading `-`. -/
def strconv.decimalInt (s : String) : Int :=
  match s.data with
  | '-' :: cs => - (strconv.decimalValue cs : Int)
  | cs => (strconv.decimalValue cs : Int)

/-- The words of the specification for the head and base of the pull request: `short` is `name`
with one leading `refs/heads/` removed, and `name` itself when it does not start with
`refs/heads/`. -/
def IsShortName (name short : String) : Prop :=
  (∃ x : String, name = "refs/heads/" ++ x ∧ short = x) ∨
    ((¬ ∃ x : String, name = "refs/heads/" ++ x) ∧ short = name)

/-- The ref `refs/heads/main` of the scenarios. -/
def mainRef : github.Reference :=
  { Ref := some "refs/heads/main", Object := some { SHA := some "another-very-real-sha" } }

/-- A ref whose name merely ends in `main`. -/
def notMainRef : github.Reference :=
  { Ref := some "refs/heads/not-main", Object := some { SHA := some "sha-of-not-main" } }

/-- The scenario in which the branch `not-main` is listed before `main`. -/
def shadowed : Script :=
  { happy with listMatchingRefs := ([some notMainRef, some mainRef], none) }

/-! ## Properties -/

namespace Prog

variable {σ ε ε₂ α β : Type}

@[simp] theorem bind_eq (m : Prog σ ε α) (f : α → Prog σ ε β) : m >>= f = Prog.bind m f := rfl

@[simp] theorem pure_eq (a : α) : (Pure.pure a : Prog σ ε α) = Prog.pure a := rfl

@[simp] theorem pure_apply (a : α) (s : σ) : (Prog.pure a : Prog σ ε α) s = ⟨.ret a, s, []⟩ := rfl

@[simp] theorem nilDeref_apply (s : σ) : (Prog.nilDeref : Prog σ ε α) s = ⟨.nilDeref, s, []⟩ := rfl

@[simp] theorem deref_some (a : α) : (Prog.deref (some a) : Prog σ ε α) = Prog.pure a := rfl

@[simp] theorem deref_none : (Prog.deref (none : Option α) : Prog σ ε α) = Prog.nilDeref := rfl

@[simp] theorem bind_pure_left (a : α) (f : α → Prog σ ε β) (s : σ) :
    Prog.bind (Prog.pure a) f s = f a s := by
  simp [Prog.bind, Prog.pure]

@[simp] theorem bind_nilDeref (f : α → Prog σ ε β) (s : σ) :
    Prog.bind (Prog.nilDeref : Prog σ ε α) f s = ⟨.nilDeref, s, []⟩ := by
  simp [Prog.bind, Prog.nilDeref]

@[simp] theorem bind_call (g : σ → α × σ) (record : α → ε) (f : α → Prog σ ε β) (s : σ) :
    Prog.bind (Prog.call g record) f s =
      ⟨(f (g s).1 (g s).2).out, (f (g s).1 (g s).2).world,
        record (g s).1 :: (f (g s).1 (g s).2).calls⟩ := by
  simp [Prog.bind, Prog.call]

@[simp] theorem bind_read (g : σ → α × σ) (f : α → Prog σ ε β) (s : σ) :
    Prog.bind (Prog.read g) f s = f (g s).1 (g s).2 := by
  simp [Prog.bind, Prog.read]

theorem bind_apply (m : Prog σ ε α) (f : α → Prog σ ε β) (s : σ) :
    Prog.bind m f s =
      match m s with
      | ⟨.ret a, s₁, cs⟩ => ⟨(f a s₁).out, (f a s₁).world, cs ++ (f a s₁).calls⟩
      | ⟨.nilDeref, s₁, cs⟩ => ⟨.nilDeref, s₁, cs⟩ := rfl

end Prog

/-! ### Strings -/

namespace strings

theorem hasSuffixChars_iff (s suffix : List Char) :
    hasSuffixChars s suffix = true ↔ ∃ p, s = p ++ suffix := by
  constructor
  · intro h
    simp only [hasSuffixChars, Bool.and_eq_true, decide_eq_true_eq] at h
    refine ⟨s.take (s.length - suffix.length), ?_⟩
    conv_lhs => rw [← List.take_append_drop (s.length - suffix.length) s]
    rw [h.2]
  · rintro ⟨p, rfl⟩
    simp [hasSuffixChars]

theorem HasSuffix_iff (s suffix : String) :
    HasSuffix s suffix = true ↔ ∃ p : String, s = p ++ suffix := by
  rw [HasSuffix, hasSuffixChars_iff]
  constructor
  · rintro ⟨p, hp⟩
    exact ⟨String.mk p, String.ext (by simpa using hp)⟩
  · rintro ⟨p, rfl⟩
    exact ⟨p.data, by simp⟩

theorem cutChars_first (c₀ : Char) (sep pre post : List Char) (h : c₀ ∉ pre) :
    cutChars (c₀ :: sep) (pre ++ (c₀ :: sep) ++ post) = some (pre, post) := by
  induction pre with
  | nil =>
    simp [cutChars, List.isPrefixOf]
  | cons x pre ih =>
    have hx : x ≠ c₀ := fun e => h (by simp [e])
    have hp : c₀ ∉ pre := fun e => h (by simp [e])
    have := ih hp
    simp only [List.append_assoc, List.cons_append] at this ⊢
    simp [cutChars, List.isPrefixOf, hx.symm, this, Ne.symm hx]

theorem Cut_first (c₀ : Char) (sep pre post : List Char) (h : c₀ ∉ pre) :
    Cut (String.mk (pre ++ (c₀ :: sep) ++ post)) (String.mk (c₀ :: sep)) =
      (String.mk pre, String.mk post, true) := by
  have := cutChars_first c₀ sep pre post h
  simp only [List.append_assoc, List.cons_append] at this
  simp [Cut, this]

theorem TrimSuffix_absent (s : String) (c : Char) (h : c ∉ s.data) :
    TrimSuffix s (String.mk [c]) = s := by
  have : HasSuffix s (String.mk [c]) = false := by
    cases hs : HasSuffix s (String.mk [c]) with
    | false => rfl
    | true =>
      obtain ⟨p, hp⟩ := (hasSuffixChars_iff _ _).1 hs
      exact absurd (by simp [hp]) h
  simp [TrimSuffix, this]

theorem TrimSuffix_present (s : String) (c : Char) :
    TrimSuffix (s ++ String.mk [c]) (String.mk [c]) = s := by
  have : HasSuffix (s ++ String.mk [c]) (String.mk [c]) = true :=
    (HasSuffix_iff _ _).2 ⟨s, rfl⟩
  simp [TrimSuffix, this]

end strings

/-! ### Each step, from the answer of the remote side -/

namespace Client

variable {σ : Type}

theorem findRefLoop_eq_none_iff (opts : Options) (refs : List (Option github.Reference)) :
    findRefLoop opts refs = none ↔ refs.all (fun ref => !refMatches opts ref) = true := by
  induction refs with
  | nil => simp [findRefLoop]
  | cons ref rest ih =>
    by_cases h : refMatches opts ref = true
    · cases ref with
      | none => simp [refMatches] at h
      | some r => simp [findRefLoop, h]
    · simp [findRefLoop, h, ih]

theorem findRefLoop_some_matches {opts : Options} {refs : List (Option github.Reference)}
    {ref : github.Reference} (h : findRefLoop opts refs = some ref) :
    some ref ∈ refs ∧ refMatches opts (some ref) = true := by
  induction refs with
  | nil => simp [findRefLoop] at h
  | cons r rest ih =>
    by_cases hm : refMatches opts r = true
    · simp only [findRefLoop, hm, if_true] at h
      subst h
      simp [hm]
    · simp only [findRefLoop, hm] at h
      have := ih h
      simp [this]

theorem createBlob_apply (c : Client σ) (opts : Options) (content : List UInt8) (s : σ) :
    c.createBlob opts content s =
      let req := blobRequest content
      let r := c.github.CreateBlob opts.Repo.Org opts.Repo.Name req s
      ⟨match r.1 with
        | (_, some err) => .ret (none, some (.wrapf "github.Git.CreateBlob: " (.lib err)))
        | (some blob, none) => .ret (blob.SHA, none)
        | (none, none) => .nilDeref,
       r.2, [Call.CreateBlob opts.Repo.Org opts.Repo.Name req r.1]⟩ := by
  simp only [createBlob, blobRequest, Prog.bind_eq, Prog.pure_eq, Prog.bind_call]
  rcases c.github.CreateBlob opts.Repo.Org opts.Repo.Name _ s with ⟨⟨blob, err⟩, s1⟩
  cases err <;> cases blob <;> simp

theorem findMainBranchRef_apply (c : Client σ) (opts : Options) (s : σ) :
    c.findMainBranchRef opts s =
      let r := c.github.ListMatchingRefs opts.Repo.Org opts.Repo.Name none s
      ⟨match r.1 with
        | (_, some err) => .ret (none, some (.wrapf "github.Git.ListMatchingRefs: " (.lib err)))
        | (refs, none) =>
          match findRefLoop opts refs with
          | some ref => .ret (some ref, none)
          | none =>
            .ret (none, some (.errorf ("could not find ref for branch " ++ opts.MainBranch))),
       r.2, [Call.ListMatchingRefs opts.Repo.Org opts.Repo.Name none r.1]⟩ := by
  simp only [findMainBranchRef, Prog.bind_eq, Prog.pure_eq, Prog.bind_call]
  rcases c.github.ListMatchingRefs opts.Repo.Org opts.Repo.Name none s with ⟨⟨refs, err⟩, s1⟩
  cases err
  · cases h : findRefLoop opts refs <;> simp [h]
  · simp

theorem createTree_apply (c : Client σ) (opts : Options) (blobSHA mainRef : String) (s : σ) :
    c.createTree opts blobSHA mainRef s =
      let entry := treeEntry opts blobSHA
      let r := c.github.CreateTree opts.Repo.Org opts.Repo.Name mainRef [some entry] s
      ⟨match r.1 with
        | (_, some err) => .ret (none, some (.wrapf "github.Git.CreateTree: " (.lib err)))
        | (tree, none) => .ret (tree, none),
       r.2, [Call.CreateTree opts.Repo.Org opts.Repo.Name mainRef [some entry] r.1]⟩ := by
  simp only [createTree, treeEntry, Prog.bind_eq, Prog.pure_eq, Prog.bind_call]
  rcases c.github.CreateTree opts.Repo.Org opts.Repo.Name mainRef _ s with ⟨⟨tree, err⟩, s1⟩
  cases err <;> simp

theorem commitFile_apply (c : Client σ) (opts : Options) (tree : Option github.Tree)
    (mainRef : String) (s : σ) :
    c.commitFile opts tree mainRef s =
      let t := c.github.Now s
      let req := commitRequest tree mainRef t.1
      let r := c.github.CreateCommit opts.Repo.Org opts.Repo.Name req t.2
      ⟨match r.1 with
        | (_, some err) => .ret (none, some (.wrapf "github.Git.CreateCommit: " (.lib err)))
        | (some commitRes, none) => .ret (commitRes.SHA, none)
        | (none, none) => .nilDeref,
       r.2, [Call.CreateCommit opts.Repo.Org opts.Repo.Name req r.1]⟩ := by
  simp only [commitFile, commitRequest, Prog.bind_eq, Prog.pure_eq, Prog.bind_call, Prog.bind_read]
  rcases c.github.CreateCommit opts.Repo.Org opts.Repo.Name _ (c.github.Now s).2 with
    ⟨⟨res, err⟩, s1⟩
  cases err <;> cases res <;> simp

theorem createNewRef_apply (c : Client σ) (opts : Options) (commitSHA : Option String) (s : σ) :
    c.createNewRef opts commitSHA s =
      let t := c.github.Now s
      let req := refRequest commitSHA t.1
      let r := c.github.CreateRef opts.Repo.Org opts.Repo.Name req t.2
      ⟨match r.1 with
        | (_, some err) => .ret (none, some (.wrapf "github.Git.CreateRef: " (.lib err)))
        | (some ref, none) => .ret (ref.Ref, none)
        | (none, none) => .nilDeref,
       r.2, [Call.CreateRef opts.Repo.Org opts.Repo.Name req r.1]⟩ := by
  simp only [createNewRef, refRequest, Prog.bind_eq, Prog.pure_eq, Prog.bind_call,
    Prog.bind_read]
  rcases c.github.CreateRef opts.Repo.Org opts.Repo.Name _ (c.github.Now s).2 with
    ⟨⟨res, err⟩, s1⟩
  cases err <;> cases res <;> simp

theorem openPullRequest_apply (c : Client σ) (opts : Options) (prRef mainRef : String) (s : σ) :
    c.openPullRequest opts prRef mainRef s =
      let t := c.github.Now s
      let req := pullRequest prRef mainRef t.1
      let r := c.github.CreatePullRequest opts.Repo.Org opts.Repo.Name req t.2
      ⟨match r.1 with
        | (_, some err) => .ret ("", some (.wrapf "github.PullRequests.Create: " (.lib err)))
        | (some pr, none) =>
          match pr.HTMLURL with
          | some htmlURL => .ret (htmlURL, none)
          | none => .nilDeref
        | (none, none) => .nilDeref,
       r.2, [Call.CreatePullRequest opts.Repo.Org opts.Repo.Name req r.1]⟩ := by
  simp only [openPullRequest, pullRequest, Prog.bind_eq, Prog.pure_eq, Prog.bind_call,
    Prog.bind_read]
  rcases c.github.CreatePullRequest opts.Repo.Org opts.Repo.Name _ (c.github.Now s).2 with
    ⟨⟨res, err⟩, s1⟩
  cases err
  · cases res with
    | none => simp
    | some pr => cases h : pr.HTMLURL <;> simp [h]
  · simp

theorem refMatches_ref {opts : Options} {ref : github.Reference}
    (h : refMatches opts (some ref) = true) :
    ∃ name, ref.Ref = some name ∧ strings.HasSuffix name opts.MainBranch = true := by
  cases hr : ref.Ref with
  | none => simp [refMatches, hr] at h
  | some name => exact ⟨name, rfl, by simpa [refMatches, hr] using h⟩

theorem UpdatePGOFile_run (c : Client σ) (opts : Options) (content : List UInt8) (s : σ) :
    UpdateRun c opts content s (c.UpdatePGOFile opts content s) := by
  simp only [UpdatePGOFile, Prog.bind_eq, Prog.pure_eq]
  simp only [Prog.bind_apply, createBlob_apply]
  rcases hb : c.github.CreateBlob opts.Repo.Org opts.Repo.Name (blobRequest content) s with
    ⟨⟨blob, _ | err⟩, s₁⟩
  swap
  · simpa using UpdateRun.blobError hb
  rcases blob with _ | blob
  · simpa using UpdateRun.blobNil hb
  simp only [Prog.bind_apply, findMainBranchRef_apply]
  rcases hl : c.github.ListMatchingRefs opts.Repo.Org opts.Repo.Name none s₁ with
    ⟨⟨refs, _ | err⟩, s₂⟩
  swap
  · simpa using UpdateRun.refsError hb hl
  rcases hf : findRefLoop opts refs with _ | ref
  · simpa [hf] using UpdateRun.refNotFound hb hl hf
  simp only [hf, Prog.pure_apply, List.cons_append, List.nil_append]
  rcases hbs : blob.SHA with _ | blobSHA
  · simpa [Prog.bind_apply] using UpdateRun.baseNil hb hl hf (Or.inl hbs)
  simp only [Prog.bind_apply, Prog.deref_some, Prog.pure_apply, List.cons_append, List.nil_append]
  rcases hobj : ref.Object with _ | ⟨_ | mainSHA⟩
  · simpa [Prog.bind_apply] using UpdateRun.baseNil hb hl hf (Or.inr (Or.inl hobj))
  · simpa [Prog.bind_apply] using UpdateRun.baseNil hb hl hf (Or.inr (Or.inr hobj))
  simp only [Prog.bind_apply, Prog.deref_some, Prog.pure_apply, List.cons_append, List.nil_append,
    createTree_apply]
  rcases ht : c.github.CreateTree opts.Repo.Org opts.Repo.Name mainSHA
    [some (treeEntry opts blobSHA)] s₂ with ⟨⟨tree, _ | err⟩, s₃⟩
  swap
  · simpa using UpdateRun.treeError hb hl hf hbs hobj ht
  simp only [Prog.bind_apply, Prog.deref_some, Prog.pure_apply, List.cons_append, List.nil_append,
    commitFile_apply]
  rcases hc : c.github.CreateCommit opts.Repo.Org opts.Repo.Name
    (commitRequest tree mainSHA (c.github.Now s₃).1) (c.github.Now s₃).2 with
    ⟨⟨commit, _ | err⟩, s₄⟩
  swap
  · simpa using UpdateRun.commitError hb hl hf hbs hobj ht hc
  rcases commit with _ | commit
  · simpa using UpdateRun.commitNil hb hl hf hbs hobj ht hc
  simp only [Prog.bind_apply, Prog.deref_some, Prog.pure_apply, List.cons_append, List.nil_append,
    createNewRef_apply]
  rcases hr : c.github.CreateRef opts.Repo.Org opts.Repo.Name
    (refRequest commit.SHA (c.github.Now s₄).1) (c.github.Now s₄).2 with
    ⟨⟨newRef, _ | err⟩, s₅⟩
  swap
  · simpa using UpdateRun.refError hb hl hf hbs hobj ht hc hr
  rcases newRef with _ | newRef
  · simpa using UpdateRun.refNil hb hl hf hbs hobj ht hc hr
  simp only [Prog.bind_apply, Prog.deref_some, Prog.pure_apply, List.cons_append, List.nil_append]
  rcases hpr : newRef.Ref with _ | prRef
  · simpa [Prog.bind_apply] using UpdateRun.refNameNil hb hl hf hbs hobj ht hc hr hpr
  obtain ⟨mainRefName, hmr, -⟩ := refMatches_ref (findRefLoop_some_matches hf).2
  simp only [hmr, Prog.bind_apply, Prog.deref_some, Prog.pure_apply, List.cons_append,
    List.nil_append, openPullRequest_apply]
  rcases hp : c.github.CreatePullRequest opts.Repo.Org opts.Repo.Name
    (pullRequest prRef mainRefName (c.github.Now s₅).1) (c.github.Now s₅).2 with
    ⟨⟨pr, _ | err⟩, s₆⟩
  swap
  · simpa using UpdateRun.pullRequestError hb hl hf hbs hobj ht hc hr hpr hmr hp
  rcases pr with _ | ⟨_ | htmlURL⟩
  · simpa using UpdateRun.pullRequestNil hb hl hf hbs hobj ht hc hr hpr hmr hp (Or.inl rfl)
  · simpa using UpdateRun.pullRequestNil hb hl hf hbs hobj ht hc hr hpr hmr hp (Or.inr rfl)
  · simpa using UpdateRun.done hb hl hf hbs hobj ht hc hr hpr hmr hp

theorem forall_not_refMatches_iff (opts : Options) (refs : List (Option github.Reference)) :
    (∀ x ∈ refs, refMatches opts x = false) ↔ findRefLoop opts refs = none := by
  rw [findRefLoop_eq_none_iff]
  simp

theorem exists_refMatches_iff (opts : Options) (refs : List (Option github.Reference)) :
    (∃ x ∈ refs, refMatches opts x = true) ↔ ∃ ref, findRefLoop opts refs = some ref := by
  have h := forall_not_refMatches_iff opts refs
  constructor
  · intro hx
    cases hf : findRefLoop opts refs with
    | some ref => exact ⟨ref, rfl⟩
    | none =>
      obtain ⟨x, hx, hm⟩ := hx
      have := h.2 hf x hx
      simp [hm] at this
  · rintro ⟨ref, hf⟩
    exact ⟨some ref, (findRefLoop_some_matches hf).1, (findRefLoop_some_matches hf).2⟩

/-! ### The call sequence of `UpdatePGOFile` -/

/-- C1: in every execution of `UpdatePGOFile`, whatever the remote side answers, the calls made
are an initial segment of create-blob, list-refs, create-tree, create-commit, create-ref,
create-pull-request, in that order; no call follows a failed step (a remote error, or a ref listing
without a ref matching the base branch), so a failed step is the last call made; an execution that
returns has either made all six calls or stopped on a failed step; and when the listing has no
matching ref the calls are exactly create-blob and list-refs. -/
theorem UpdatePGOFile_calls_stop_at_first_failure (c : Client σ) (opts : Options)
    (content : List UInt8) (s : σ) :
    ((c.UpdatePGOFile opts content s).calls.map Call.step =
        (Step.all.take (c.UpdatePGOFile opts content s).calls.length).map some) ∧
    (∀ call ∈ (c.UpdatePGOFile opts content s).calls.dropLast, call.failed opts = false) ∧
    (∀ r, (c.UpdatePGOFile opts content s).out = .ret r →
      (c.UpdatePGOFile opts content s).calls.length = 6 ∨
      ∃ call, (c.UpdatePGOFile opts content s).calls.getLast? = some call ∧
        call.failed opts = true) ∧
    (∀ call ∈ (c.UpdatePGOFile opts content s).calls, call.noRefMatches opts = true →
      (c.UpdatePGOFile opts content s).calls.map Call.step =
        [some .createBlob, some .findMainBranchRef]) := by
  have h := UpdatePGOFile_run c opts content s
  generalize c.UpdatePGOFile opts content s = e at h
  cases h <;>
    simp_all [Call.step, Step.all, Call.failed, Call.err, Call.noRefMatches,
      forall_not_refMatches_iff, exists_refMatches_iff]

/-- C2: if a step of `UpdatePGOFile` fails (the call `call` of step `step` is answered with an
error, or is a ref listing without a matching ref), the function returns the empty URL and the
error `fmt.Errorf("<step>: %w", cause)`: its message is the name of the step, `": "`, and the
message of the error `cause` returned by the step; unwrapping it gives `cause`; and `errors.Is`
finds in it the error answered by the remote side, when there is one. -/
theorem UpdatePGOFile_error_names_failed_step (c : Client σ) (opts : Options)
    (content : List UInt8) (s : σ) (call : Call) (step : Step)
    (hcall : call ∈ (c.UpdatePGOFile opts content s).calls) (hstep : call.step = some step)
    (hfail : call.failed opts = true) :
    ∃ cause : GoError,
      (c.UpdatePGOFile opts content s).out =
        .ret ("", some (.wrapf (step.name ++ ": ") cause)) ∧
      (∀ t, GoError.Error t (.wrapf (step.name ++ ": ") cause) =
        step.name ++ ": " ++ GoError.Error t cause) ∧
      GoError.Unwrap (.wrapf (step.name ++ ": ") cause) = some cause ∧
      (∀ e, call.err = some e →
        GoError.Is (.wrapf (step.name ++ ": ") cause) (.lib e) = true) ∧
      (call.err = none →
        cause = .errorf ("could not find ref for branch " ++ opts.MainBranch)) := by
  have h := UpdatePGOFile_run c opts content s
  generalize c.UpdatePGOFile opts content s = e at h hcall
  cases h
  all_goals simp only [List.mem_cons, List.mem_singleton, List.not_mem_nil, or_false] at hcall
  all_goals repeat' (first | obtain rfl | hcall := hcall | subst hcall)
  all_goals simp only [Call.step, Option.some.injEq] at hstep
  all_goals subst hstep
  all_goals
    simp_all [Call.failed, Call.err, Call.noRefMatches, forall_not_refMatches_iff,
      exists_refMatches_iff, Step.name, GoError.Error, GoError.Unwrap, GoError.Is]

/-- Witness of C2: in scenario `treeFails` the tree creation is the failed call, and the error
returned is named after `createTree`. -/
theorem UpdatePGOFile_error_names_failed_step_witness :
    treeFailsCall ∈ (treeFails.client.UpdatePGOFile testOpts [] ()).calls ∧
    treeFailsCall.step = some .createTree ∧
    treeFailsCall.failed testOpts = true ∧
    ∃ cause : GoError,
      (treeFails.client.UpdatePGOFile testOpts [] ()).out =
        .ret ("", some (.wrapf (Step.createTree.name ++ ": ") cause)) ∧
      (∀ t, GoError.Error t (.wrapf (Step.createTree.name ++ ": ") cause) =
        Step.createTree.name ++ ": " ++ GoError.Error t cause) ∧
      GoError.Unwrap (.wrapf (Step.createTree.name ++ ": ") cause) = some cause ∧
      (∀ e, treeFailsCall.err = some e →
        GoError.Is (.wrapf (Step.createTree.name ++ ": ") cause) (.lib e) = true) ∧
      (treeFailsCall.err = none →
        cause = .errorf ("could not find ref for branch " ++ testOpts.MainBranch)) :=
  ⟨.tail _ (.tail _ (.head _)), by decide, by decide,
    UpdatePGOFile_error_names_failed_step treeFails.client testOpts [] () treeFailsCall
      .createTree (.tail _ (.tail _ (.head _))) (by decide) (by decide)⟩

/-- C3: when all six calls of an execution of `UpdatePGOFile` are made and none of the steps
fails, and the answer to the pull-request creation carries the HTML URL `url`, the function
returns `url` and a nil error. -/
theorem UpdatePGOFile_returns_pull_request_url (c : Client σ) (opts : Options)
    (content : List UInt8) (s : σ) (owner repo : String) (req : github.NewPullRequest)
    (pr : github.PullRequest) (url : String)
    (hsix : (c.UpdatePGOFile opts content s).calls.map Call.step = Step.all.map some)
    (hok : ∀ call ∈ (c.UpdatePGOFile opts content s).calls, call.failed opts = false)
    (hpr : Call.CreatePullRequest owner repo req (some pr, none) ∈
      (c.UpdatePGOFile opts content s).calls)
    (hurl : pr.HTMLURL = some url) :
    (c.UpdatePGOFile opts content s).out = .ret (url, none) := by
  have h := UpdatePGOFile_run c opts content s
  generalize c.UpdatePGOFile opts content s = e at h hsix hok hpr
  cases h with
  | pullRequestNil _ _ _ _ _ _ _ _ _ _ _ hnil =>
    simp only [List.mem_cons, List.mem_singleton, List.not_mem_nil, or_false, Call.CreatePullRequest.injEq,
      Prod.mk.injEq, reduceCtorEq, false_or, and_true] at hpr
    obtain ⟨-, -, -, rfl⟩ := hpr
    rcases hnil with h | h
    · cases h
    · cases h
      simp at hurl
  | _ => simp_all [Call.step, Step.all]

/-- Witness of C3: the scenario of the test suite in which every call succeeds. -/
theorem UpdatePGOFile_returns_pull_request_url_witness :
    ((happy.client.UpdatePGOFile testOpts [] ()).calls.map Call.step = Step.all.map some) ∧
    (∀ call ∈ (happy.client.UpdatePGOFile testOpts [] ()).calls,
      call.failed testOpts = false) ∧
    (happy.client.UpdatePGOFile testOpts [] ()).out =
      .ret ("https://github.com/my-org/my-repo/pulls/1", none) :=
  ⟨by decide, by decide,
    UpdatePGOFile_returns_pull_request_url happy.client testOpts [] () "my-org" "my-repo"
      (pullRequest "new-ref-sha" "refs/heads/main" happy.now)
      { HTMLURL := some "https://github.com/my-org/my-repo/pulls/1" }
      "https://github.com/my-org/my-repo/pulls/1" (by decide) (by decide) (by decide) rfl⟩

/-! ### `findMainBranchRef` -/

theorem refMatches_iff (opts : Options) (ref : Option github.Reference) :
    refMatches opts ref = true ↔ IsBaseBranchRef opts ref := by
  cases ref with
  | none => simp [refMatches, IsBaseBranchRef]
  | some r =>
    cases hr : r.Ref with
    | none => simp [refMatches, IsBaseBranchRef, hr]
    | some name => simp [refMatches, IsBaseBranchRef, hr, strings.HasSuffix_iff]

theorem findRefLoop_first (opts : Options) (pre post : List (Option github.Reference))
    (ref : github.Reference) (hpre : ∀ x ∈ pre, refMatches opts x = false)
    (href : refMatches opts (some ref) = true) :
    findRefLoop opts (pre ++ some ref :: post) = some ref := by
  induction pre with
  | nil => simp [findRefLoop, href]
  | cons x pre ih =>
    have hx : refMatches opts x = false := hpre x (by simp)
    have := ih (fun y hy => hpre y (by simp [hy]))
    simp [findRefLoop, hx, this]

/-- C4: when the ref listing succeeds with the list `refs`, `findMainBranchRef` returns (it does
not panic); it returns the first element of `refs`, in list order, that is present, has a name and
whose name ends with `opts.MainBranch`; it returns an error exactly when no element of `refs`
satisfies that condition; and a ref it returns is an element of `refs` whose name ends with
`opts.MainBranch`. -/
theorem findMainBranchRef_first_suffix_match (c : Client σ) (opts : Options) (s s₁ : σ)
    (refs : List (Option github.Reference))
    (hl : c.github.ListMatchingRefs opts.Repo.Org opts.Repo.Name none s = ((refs, none), s₁)) :
    (∃ r, (c.findMainBranchRef opts s).out = .ret r) ∧
    (∀ pre ref post, refs = pre ++ some ref :: post → (∀ x ∈ pre, ¬ IsBaseBranchRef opts x) →
      IsBaseBranchRef opts (some ref) →
      (c.findMainBranchRef opts s).out = .ret (some ref, none)) ∧
    ((∃ r e, (c.findMainBranchRef opts s).out = .ret (r, some e)) ↔
      ∀ x ∈ refs, ¬ IsBaseBranchRef opts x) ∧
    (∀ ref e, (c.findMainBranchRef opts s).out = .ret (some ref, e) →
      e = none ∧ some ref ∈ refs ∧ IsBaseBranchRef opts (some ref)) := by
  simp only [findMainBranchRef_apply, hl, ← refMatches_iff, Bool.not_eq_true]
  refine ⟨?_, ?_, ?_, ?_⟩
  · cases findRefLoop opts refs <;> simp
  · rintro pre ref post rfl hpre href
    simp [findRefLoop_first opts pre post ref hpre href]
  · rw [forall_not_refMatches_iff]
    cases findRefLoop opts refs <;> simp
  · intro ref e
    cases hf : findRefLoop opts refs with
    | none => simp
    | some r =>
      have := findRefLoop_some_matches hf
      simp only [Outcome.ret.injEq, Prod.mk.injEq, Option.some.injEq]
      rintro ⟨rfl, rfl⟩
      exact ⟨rfl, this.1, this.2⟩

/-- Witness of C4: the ref listing of the test suite, in which `refs/heads/main` is listed. -/
theorem findMainBranchRef_first_suffix_match_witness :
    happy.client.github.ListMatchingRefs testOpts.Repo.Org testOpts.Repo.Name none () =
      ((happy.listMatchingRefs.1, none), ()) ∧
    (∃ r, (happy.client.findMainBranchRef testOpts ()).out = .ret r) ∧
    (∀ pre ref post, happy.listMatchingRefs.1 = pre ++ some ref :: post →
      (∀ x ∈ pre, ¬ IsBaseBranchRef testOpts x) → IsBaseBranchRef testOpts (some ref) →
      (happy.client.findMainBranchRef testOpts ()).out = .ret (some ref, none)) ∧
    ((∃ r e, (happy.client.findMainBranchRef testOpts ()).out = .ret (r, some e)) ↔
      ∀ x ∈ happy.listMatchingRefs.1, ¬ IsBaseBranchRef testOpts x) ∧
    (∀ ref e, (happy.client.findMainBranchRef testOpts ()).out = .ret (some ref, e) →
      e = none ∧ some ref ∈ happy.listMatchingRefs.1 ∧ IsBaseBranchRef testOpts (some ref)) :=
  ⟨rfl, findMainBranchRef_first_suffix_match happy.client testOpts () ()
    happy.listMatchingRefs.1 rfl⟩

/-! ### `ExistingPGOFileURL` -/

theorem ExistingPGOFileURL_apply (c : Client σ) (opts : Options) (s : σ) :
    c.ExistingPGOFileURL opts s =
      let r := c.github.GetContents opts.Repo.Org opts.Repo.Name opts.Filename none s
      ⟨match r.1 with
        | (_, some resp, some err) =>
          if resp.StatusCode = 404 then
            .ret ("", some (.wrapf "github.Repositories.GetContents: " .ErrPGOFileNotFound))
          else .ret ("", some (.wrapf "github.Repositories.GetContents: " (.lib err)))
        | (_, none, some _) => .nilDeref
        | (some fileContent, _, none) =>
          match fileContent.DownloadURL with
          | some downloadURL => .ret (downloadURL, none)
          | none => .nilDeref
        | (none, _, none) => .nilDeref,
       r.2, [Call.GetContents opts.Repo.Org opts.Repo.Name opts.Filename none r.1]⟩ := by
  simp only [ExistingPGOFileURL, Prog.bind_eq, Prog.pure_eq, Prog.bind_call]
  rcases c.github.GetContents opts.Repo.Org opts.Repo.Name opts.Filename none s with
    ⟨⟨fc, resp, err⟩, s₁⟩
  rcases err with _ | err
  · rcases fc with _ | fc
    · simp
    · rcases h : fc.DownloadURL with _ | u <;> simp [h]
  · rcases resp with _ | resp
    · simp
    · by_cases h : resp.StatusCode = 404 <;> simp [h]

/-- C5: if the contents lookup fails with a response of status 404, `ExistingPGOFileURL` returns
the empty string and an error that matches `gitops.ErrPGOFileNotFound` under `errors.Is`; if the
lookup succeeds and answers a file with a download URL, that URL is returned with a nil error; and
an error matching `gitops.ErrPGOFileNotFound` is returned only when the lookup failed with a
response of status 404. -/
theorem ExistingPGOFileURL_not_found_iff_404 (c : Client σ) (opts : Options) (s : σ) :
    (∀ fileContent resp err s₁,
      c.github.GetContents opts.Repo.Org opts.Repo.Name opts.Filename none s =
        ((fileContent, some resp, some err), s₁) →
      resp.StatusCode = 404 →
      ∃ e, (c.ExistingPGOFileURL opts s).out = .ret ("", some e) ∧
        GoError.Is e .ErrPGOFileNotFound = true) ∧
    (∀ fileContent resp downloadURL s₁,
      c.github.GetContents opts.Repo.Org opts.Repo.Name opts.Filename none s =
        ((some fileContent, resp, none), s₁) →
      fileContent.DownloadURL = some downloadURL →
      (c.ExistingPGOFileURL opts s).out = .ret (downloadURL, none)) ∧
    (∀ url e, (c.ExistingPGOFileURL opts s).out = .ret (url, some e) →
      GoError.Is e .ErrPGOFileNotFound = true →
      ∃ fileContent resp err s₁,
        c.github.GetContents opts.Repo.Org opts.Repo.Name opts.Filename none s =
          ((fileContent, some resp, some err), s₁) ∧ resp.StatusCode = 404) := by
  simp only [ExistingPGOFileURL_apply]
  rcases c.github.GetContents opts.Repo.Org opts.Repo.Name opts.Filename none s with
    ⟨⟨fc, resp, err⟩, s₁⟩
  refine ⟨?_, ?_, ?_⟩
  · rintro fc' resp' err' s₁' h h404
    simp only [Prod.mk.injEq] at h
    obtain ⟨⟨rfl, rfl, rfl⟩, rfl⟩ := h
    simp [h404, GoError.Is]
  · rintro fc' resp' url s₁' h hurl
    simp only [Prod.mk.injEq] at h
    obtain ⟨⟨rfl, rfl, rfl⟩, rfl⟩ := h
    simp [hurl]
  · intro url e hout his
    rcases err with _ | err
    · rcases fc with _ | fc
      · simp at hout
      · rcases h : fc.DownloadURL with _ | u <;> simp [h] at hout
    · rcases resp with _ | resp
      · simp at hout
      · by_cases h : resp.StatusCode = 404
        · exact ⟨fc, resp, err, s₁, rfl, h⟩
        · simp only [h, if_false, Outcome.ret.injEq, Prod.mk.injEq, Option.some.injEq] at hout
          obtain ⟨-, rfl⟩ := hout
          simp [GoError.Is] at his

/-- A failure of the contents lookup that comes with a response of a status other than 404 is
returned wrapped, with the empty string. -/
theorem ExistingPGOFileURL_other_status (c : Client σ) (opts : Options) (s s₁ : σ)
    (fileContent : Option github.RepositoryContent) (resp : github.Response) (err : LibError)
    (h : c.github.GetContents opts.Repo.Org opts.Repo.Name opts.Filename none s =
      ((fileContent, some resp, some err), s₁))
    (hstatus : resp.StatusCode ≠ 404) :
    (c.ExistingPGOFileURL opts s).out =
      .ret ("", some (.wrapf "github.Repositories.GetContents: " (.lib err))) := by
  simp [ExistingPGOFileURL_apply, h, hstatus]

/-- C6 (defect): when the contents lookup fails without a response object (transport failure or
cancellation), `ExistingPGOFileURL` does not return: reading `resp.StatusCode` dereferences the nil
response.  Scenario `transportFails`. -/
theorem ExistingPGOFileURL_panics_without_response :
    (transportFails.client.ExistingPGOFileURL testOpts ()).out = .nilDeref ∧
    ∀ r, (transportFails.client.ExistingPGOFileURL testOpts ()).out ≠ .ret r := by
  refine ⟨by decide, ?_⟩
  intro r h
  rw [show (transportFails.client.ExistingPGOFileURL testOpts ()).out = .nilDeref by decide] at h
  cases h

/-- C7, as stated, fails: the lookup issued for the options of the test suite is not qualified
with the ref `main`, and the same options with base branch `release` produce the very same
lookup. -/
theorem ExistingPGOFileURL_lookup_not_qualified :
    ¬ LookupQualifiedWithBranch happy.client testOpts () ∧
    (happy.client.ExistingPGOFileURL releaseOpts ()).calls =
      (happy.client.ExistingPGOFileURL testOpts ()).calls := by
  refine ⟨?_, rfl⟩
  intro h
  obtain ⟨owner, repo, path, res, h⟩ := h _ (List.Mem.head _)
  cases h

/-- C7, amended: `ExistingPGOFileURL` issues exactly one contents lookup, for `opts.Filename` in
`opts.Repo`, with nil options (no ref); options that differ only in `MainBranch` give the same
execution: the same lookup and the same result. -/
theorem ExistingPGOFileURL_lookup_ignores_branch (c : Client σ) (opts : Options) (s : σ) :
    (∃ res, (c.ExistingPGOFileURL opts s).calls =
      [Call.GetContents opts.Repo.Org opts.Repo.Name opts.Filename none res]) ∧
    ∀ branch, c.ExistingPGOFileURL { opts with MainBranch := branch } s =
      c.ExistingPGOFileURL opts s := by
  simp [ExistingPGOFileURL_apply]

end Client

/-! ### `Fetcher.FromURL` -/

namespace pprof

variable {σ P : Type}

theorem FromURL_apply (f : Fetcher σ) (codec : profile.Codec P) (url : String) (s : σ) :
    f.FromURL codec url s =
      match f.client.parseURL url with
      | some err => ⟨.ret (none, some (.wrapf "http.NewRequestWithContext: " (.lib err))), s, []⟩
      | none =>
        let req : http.Request := { Method := http.MethodGet, URL := url }
        let r := f.client.Do req s
        ⟨match r.1 with
          | (_, some err) => .ret (none, some (.wrapf "client.Do: " (.lib err)))
          | (none, none) => .nilDeref
          | (some resp, none) =>
            match codec.Parse resp.Body with
            | (_, some err) => .ret (none, some (.wrapf "profile.Parse: " (.lib err)))
            | (prof, none) => .ret (prof, none),
         r.2, [HttpCall.Do req r.1]⟩ := by
  simp only [Fetcher.FromURL, http.Client.NewRequestWithContext, Prog.bind_eq, Prog.pure_eq]
  rcases f.client.parseURL url with _ | err
  · simp only [Prog.deref_some, Prog.bind_pure_left, Prog.bind_call]
    rcases f.client.Do { Method := http.MethodGet, URL := url } s with ⟨⟨resp, _ | err⟩, s₁⟩
    · rcases resp with _ | resp
      · simp
      · rcases h : codec.Parse resp.Body with ⟨prof, _ | err⟩ <;> simp [h]
    · simp
  · simp

/-- C8 (defect): `FromURL` does not require a success status.  When the GET is answered, with no
transport error, by a response of status 500 and body `body`, the result is that of
`profile.Parse` on `body` alone, for every codec: a body that is a well-formed profile `prof` makes
`FromURL` return `prof` and a nil error, where the claim (and the test "when the server responds
with an error, then an error is returned", which builds a response of status 500) asks for a nil
profile and an error. -/
theorem FromURL_status_500_not_rejected (codec : profile.Codec P) (body : List UInt8)
    (url : String) :
    ((NewFetcher (fixedResponse 500 body)).FromURL codec url ()).calls =
      [.Do { Method := http.MethodGet, URL := url }
        (some { StatusCode := 500, Body := body }, none)] ∧
    ((NewFetcher (fixedResponse 500 body)).FromURL codec url ()).out =
      (match codec.Parse body with
        | (_, some err) => .ret (none, some (.wrapf "profile.Parse: " (.lib err)))
        | (prof, none) => .ret (prof, none)) ∧
    (∀ prof, codec.Parse body = (some prof, none) →
      ((NewFetcher (fixedResponse 500 body)).FromURL codec url ()).out =
        .ret (some prof, none)) := by
  refine ⟨?_, ?_, ?_⟩
  · simp [FromURL_apply, NewFetcher, fixedResponse]
  · simp [FromURL_apply, NewFetcher, fixedResponse]
  · intro prof h
    simp [FromURL_apply, NewFetcher, fixedResponse, h]

/-- The exits of `FromURL`, from the answers it gets: a URL that cannot be parsed and a transport
error are returned wrapped, with a nil profile; once a response is there, of any status, the
result is the parsed profile and a nil error when the body parses, and a nil profile and a
`profile.Parse` error when it does not. -/
theorem FromURL_result_from_body_only (f : Fetcher σ) (codec : profile.Codec P) (url : String)
    (s : σ) :
    (∀ err, f.client.parseURL url = some err →
      (f.FromURL codec url s).out =
        .ret (none, some (.wrapf "http.NewRequestWithContext: " (.lib err)))) ∧
    (f.client.parseURL url = none →
      (∀ resp err s₁,
        f.client.Do { Method := http.MethodGet, URL := url } s = ((resp, some err), s₁) →
        (f.FromURL codec url s).out = .ret (none, some (.wrapf "client.Do: " (.lib err))) ∧
        GoError.Is (.wrapf "client.Do: " (.lib err)) (.lib err) = true) ∧
      (∀ status body s₁,
        f.client.Do { Method := http.MethodGet, URL := url } s =
          ((some { StatusCode := status, Body := body }, none), s₁) →
        (∀ prof, codec.Parse body = (prof, none) →
          (f.FromURL codec url s).out = .ret (prof, none)) ∧
        (∀ prof err, codec.Parse body = (prof, some err) →
          (f.FromURL codec url s).out =
            .ret (none, some (.wrapf "profile.Parse: " (.lib err)))))) := by
  simp only [FromURL_apply]
  refine ⟨fun err h => by simp [h], fun h => ⟨?_, ?_⟩⟩
  · intro resp err s₁ hdo
    simp [h, hdo, GoError.Is]
  · intro status body s₁ hdo
    constructor
    · intro prof hp
      simp [h, hdo, hp]
    · intro prof err hp
      simp [h, hdo, hp]

end pprof

/-! ### `ParseRepoURL` -/

theorem Cut_marker (rest : String) :
    strings.Cut ("https://github.com/" ++ rest) "github.com/" = ("https://", rest, true) := by
  have := strings.Cut_first 'g' "ithub.com/".data "https://".data rest.data (by decide)
  simpa [String.ext_iff] using this

theorem Cut_slash (org rest : String) (h : '/' ∉ org.data) :
    strings.Cut (org ++ "/" ++ rest) "/" = (org, rest, true) := by
  have e : org ++ "/" ++ rest = String.mk (org.data ++ ('/' :: []) ++ rest.data) := by
    apply String.ext
    simp
  rw [e]
  exact strings.Cut_first '/' [] org.data rest.data h

theorem not_HasSuffix_slash (name : String) (h : '/' ∉ name.data) :
    strings.HasSuffix name "/" = false := by
  cases hs : strings.HasSuffix name "/" with
  | false => rfl
  | true =>
    obtain ⟨p, hp⟩ := (strings.HasSuffix_iff _ _).1 hs
    exact absurd (by simp [hp]) h

/-- C10: for every `ORG` and `NAME` without `/` (empty or not),
`ParseRepoURL("https://github.com/" + ORG + "/" + NAME)` and the same URL with a trailing `/` both
return exactly `Repository{Org: ORG, Name: NAME}`, and the returned name has no trailing `/`. -/
theorem ParseRepoURL_github (ORG NAME : String) (ho : '/' ∉ ORG.data) (hn : '/' ∉ NAME.data) :
    ParseRepoURL ("https://github.com/" ++ ORG ++ "/" ++ NAME) = { Org := ORG, Name := NAME } ∧
    ParseRepoURL ("https://github.com/" ++ ORG ++ "/" ++ NAME ++ "/") =
      { Org := ORG, Name := NAME } ∧
    strings.HasSuffix (ParseRepoURL ("https://github.com/" ++ ORG ++ "/" ++ NAME)).Name "/" =
      false ∧
    strings.HasSuffix (ParseRepoURL ("https://github.com/" ++ ORG ++ "/" ++ NAME ++ "/")).Name
      "/" = false := by
  have e1 : "https://github.com/" ++ ORG ++ "/" ++ NAME =
      "https://github.com/" ++ (ORG ++ "/" ++ NAME) := by
    simp [String.append_assoc]
  have e2 : "https://github.com/" ++ ORG ++ "/" ++ NAME ++ "/" =
      "https://github.com/" ++ (ORG ++ "/" ++ (NAME ++ "/")) := by
    simp [String.append_assoc]
  have p1 : ParseRepoURL ("https://github.com/" ++ ORG ++ "/" ++ NAME) =
      { Org := ORG, Name := NAME } := by
    rw [e1]
    simp only [ParseRepoURL, Cut_marker, Cut_slash ORG NAME ho]
    rw [show ("/" : String) = String.mk ['/'] from rfl, strings.TrimSuffix_absent NAME '/' hn]
  have p2 : ParseRepoURL ("https://github.com/" ++ ORG ++ "/" ++ NAME ++ "/") =
      { Org := ORG, Name := NAME } := by
    rw [e2]
    simp only [ParseRepoURL, Cut_marker, Cut_slash ORG (NAME ++ "/") ho]
    rw [show ("/" : String) = String.mk ['/'] from rfl, strings.TrimSuffix_present NAME '/']
  rw [p1, p2]
  exact ⟨rfl, rfl, not_HasSuffix_slash NAME hn, not_HasSuffix_slash NAME hn⟩

/-- Witness of C10: the URLs of `TestParseRepoURL`. -/
theorem ParseRepoURL_github_witness :
    '/' ∉ "my-org".data ∧ '/' ∉ "my-repo".data ∧
    ParseRepoURL ("https://github.com/" ++ "my-org" ++ "/" ++ "my-repo") =
      { Org := "my-org", Name := "my-repo" } ∧
    ParseRepoURL ("https://github.com/" ++ "my-org" ++ "/" ++ "my-repo" ++ "/") =
      { Org := "my-org", Name := "my-repo" } ∧
    strings.HasSuffix
      (ParseRepoURL ("https://github.com/" ++ "my-org" ++ "/" ++ "my-repo")).Name "/" = false ∧
    strings.HasSuffix
      (ParseRepoURL ("https://github.com/" ++ "my-org" ++ "/" ++ "my-repo" ++ "/")).Name "/" =
        false :=
  ⟨by decide, by decide, ParseRepoURL_github "my-org" "my-repo" (by decide) (by decide)⟩

/-! ### `run` -/

section Run

variable {σ P : Type}

theorem Prog.mapCalls_apply {ε ε₂ α : Type} (g : ε → ε₂) (m : Prog σ ε α) (s : σ) :
    Prog.mapCalls g m s = ⟨(m s).out, (m s).world, (m s).calls.map g⟩ := rfl

theorem pprof.MergeProfiles_buffer (codec : profile.Codec P) (profiles : List (Option P))
    (b : List UInt8) :
    pprof.MergeProfiles codec bytes.Buffer profiles b =
      match codec.Merge profiles with
      | (_, some err) =>
        ⟨.ret (some (.wrapf "profile.Merge: " (.lib err))), b,
          [.Merge profiles (codec.Merge profiles)]⟩
      | (none, none) => ⟨.nilDeref, b, [.Merge profiles (codec.Merge profiles)]⟩
      | (some merged, none) =>
        ⟨.ret none, b ++ codec.serialize merged,
          [.Merge profiles (codec.Merge profiles),
           .Write (codec.serialize merged) ((codec.serialize merged).length, none)]⟩ := by
  simp only [pprof.MergeProfiles, Prog.bind_eq, Prog.pure_eq, Prog.bind_call]
  rcases h : codec.Merge profiles with ⟨merged, _ | err⟩
  · rcases merged with _ | merged
    · simp
    · simp [bytes.Buffer]
  · simp

theorem mergeAndPublish_apply (codec : profile.Codec P) (ghClient : Client σ) (opts : Options)
    (profiles : List (Option P)) (s : σ) :
    mergeAndPublish codec ghClient opts profiles s =
      match codec.Merge profiles with
      | (_, some err) =>
        ⟨.ret (some (.wrapf "pprof.MergeProfiles: " (.wrapf "profile.Merge: " (.lib err)))), s,
          [.pprof (.Merge profiles (codec.Merge profiles))]⟩
      | (none, none) => ⟨.nilDeref, s, [.pprof (.Merge profiles (codec.Merge profiles))]⟩
      | (some merged, none) =>
        Exec.after
          [.pprof (.Merge profiles (codec.Merge profiles)),
           .pprof (.Write (codec.serialize merged) ((codec.serialize merged).length, none))]
          ⟨publishResult (ghClient.UpdatePGOFile opts (codec.serialize merged) s).out,
            (ghClient.UpdatePGOFile opts (codec.serialize merged) s).world,
            (ghClient.UpdatePGOFile opts (codec.serialize merged) s).calls.map .github⟩ := by
  simp only [mergeAndPublish, Prog.bind_eq, Prog.pure_eq, Prog.bind_apply, Prog.withBuffer,
    pprof.MergeProfiles_buffer, Prog.mapCalls_apply]
  rcases h : codec.Merge profiles with ⟨merged, _ | err⟩
  · rcases merged with _ | merged
    · simp
    · rcases hu : ghClient.UpdatePGOFile opts (codec.serialize merged) s with
        ⟨⟨url, _ | e⟩ | _, w, cs⟩ <;>
        simp [Prog.bind_apply, Prog.mapCalls_apply, hu, publishResult, Exec.after]
  · simp

theorem pprof.FromURL_calls_of_ret (f : pprof.Fetcher σ) (codec : profile.Codec P)
    (url : String) (s s₁ : σ) (prof : Option P) (cs : List HttpCall)
    (h : f.FromURL codec url s = ⟨.ret (prof, none), s₁, cs⟩) :
    ∃ resp, cs = [HttpCall.Do { Method := http.MethodGet, URL := url } (some resp, none)] := by
  rw [pprof.FromURL_apply] at h
  rcases hp : f.client.parseURL url with _ | err
  · simp only [hp] at h
    rcases hd : f.client.Do { Method := http.MethodGet, URL := url } s with ⟨⟨resp, _ | err⟩, s₂⟩
    · rcases resp with _ | resp
      · simp [hd] at h
      · simp only [hd, Exec.mk.injEq] at h
        exact ⟨resp, h.2.2.symm⟩
    · simp [hd] at h
  · simp [hp] at h

@[simp] theorem filterMap_fetchedURL_github (cs : List Call) :
    (cs.map (Event.github : Call → Event P)).filterMap Event.fetchedURL = [] := by
  induction cs <;> simp_all [Event.fetchedURL]

@[simp] theorem filterMap_mergeInput_github (cs : List Call) :
    (cs.map (Event.github : Call → Event P)).filterMap Event.mergeInput = [] := by
  induction cs <;> simp_all [Event.mergeInput]

@[simp] theorem filterMap_mergeInput_http (cs : List HttpCall) :
    (cs.map (Event.http : HttpCall → Event P)).filterMap Event.mergeInput = [] := by
  induction cs <;> simp_all [Event.mergeInput]

theorem mergeAndPublish_observed (codec : profile.Codec P) (ghClient : Client σ) (opts : Options)
    (profiles : List (Option P)) (s : σ) :
    (mergeAndPublish codec ghClient opts profiles s).calls.filterMap Event.fetchedURL = [] ∧
    (mergeAndPublish codec ghClient opts profiles s).calls.filterMap Event.mergeInput =
      [profiles] := by
  rw [mergeAndPublish_apply]
  rcases h : codec.Merge profiles with ⟨merged, _ | err⟩
  · rcases merged with _ | merged <;>
      simp [Exec.after, Event.fetchedURL, Event.mergeInput]
  · simp [Event.fetchedURL, Event.mergeInput]

theorem run_after_fetch (DefaultClient : http.Client σ) (codec : profile.Codec P)
    (backend : config.Backend) (ghClient : Client σ) (s s₁ : σ) (newProfile : P)
    (cs₁ : List HttpCall)
    (hnew : (pprof.NewFetcher DefaultClient).FromURL codec backend.URL s =
      ⟨.ret (some newProfile, none), s₁, cs₁⟩) :
    run DefaultClient codec backend ghClient s =
      Exec.after (cs₁.map .http ++ (ghClient.ExistingPGOFileURL (runOptions backend) s₁).calls.map .github)
        (match (ghClient.ExistingPGOFileURL (runOptions backend) s₁).out with
          | .nilDeref => ⟨.nilDeref, (ghClient.ExistingPGOFileURL (runOptions backend) s₁).world, []⟩
          | .ret (downloadURL, some err) =>
            if GoError.Is err .ErrPGOFileNotFound = false then
              ⟨.ret (some (.wrapf "ghClient.ExistingPGOFileURL: " err)),
                (ghClient.ExistingPGOFileURL (runOptions backend) s₁).world, []⟩
            else
              collectAndPublish DefaultClient codec ghClient (runOptions backend)
                (some newProfile) downloadURL (ghClient.ExistingPGOFileURL (runOptions backend) s₁).world
          | .ret (downloadURL, none) =>
            collectAndPublish DefaultClient codec ghClient (runOptions backend)
              (some newProfile) downloadURL (ghClient.ExistingPGOFileURL (runOptions backend) s₁).world) := by
  simp only [run, Prog.bind_eq, Prog.pure_eq, Prog.bind_apply, Prog.mapCalls_apply, hnew,
    Prog.deref_some, Prog.pure_apply, runOptions]
  rcases ghClient.ExistingPGOFileURL _ s₁ with ⟨⟨url, _ | e⟩ | _, w, cs⟩
  · simp [Exec.after]
  · by_cases h : GoError.Is e .ErrPGOFileNotFound = true <;> simp [Exec.after, h]
  · simp [Exec.after]

theorem Client.ExistingPGOFileURL_error_url (c : Client σ) (opts : Options) (s : σ)
    (url : String) (e : GoError) (h : (c.ExistingPGOFileURL opts s).out = .ret (url, some e)) :
    url = "" := by
  rw [Client.ExistingPGOFileURL_apply] at h
  rcases hg : c.github.GetContents opts.Repo.Org opts.Repo.Name opts.Filename none s with
    ⟨⟨fc, resp, err⟩, s₁⟩
  simp only [hg] at h
  rcases err with _ | err
  · rcases fc with _ | fc
    · simp at h
    · rcases hu : fc.DownloadURL with _ | u <;> simp [hu] at h
  · rcases resp with _ | resp
    · simp at h
    · by_cases h404 : resp.StatusCode = 404 <;> simp [h404] at h <;> exact h.1.symm

theorem Client.ExistingPGOFileURL_calls (c : Client σ) (opts : Options) (s : σ) :
    ∃ res, (c.ExistingPGOFileURL opts s).calls =
      [Call.GetContents opts.Repo.Org opts.Repo.Name opts.Filename none res] := by
  simp [Client.ExistingPGOFileURL_apply]

theorem collectAndPublish_empty (DefaultClient : http.Client σ) (codec : profile.Codec P)
    (ghClient : Client σ) (opts : Options) (newProfile : Option P) (s : σ) :
    collectAndPublish DefaultClient codec ghClient opts newProfile "" s =
      mergeAndPublish codec ghClient opts [newProfile] s := by
  simp [collectAndPublish]

theorem collectAndPublish_fetched (DefaultClient : http.Client σ) (codec : profile.Codec P)
    (ghClient : Client σ) (opts : Options) (newProfile existing : Option P) (url : String)
    (s s₃ : σ) (cs₃ : List HttpCall) (hurl : url ≠ "")
    (h : (pprof.NewFetcher DefaultClient).FromURL codec url s = ⟨.ret (existing, none), s₃, cs₃⟩) :
    collectAndPublish DefaultClient codec ghClient opts newProfile url s =
      Exec.after (cs₃.map .http)
        (mergeAndPublish codec ghClient opts [newProfile, existing] s₃) := by
  simp [collectAndPublish, hurl, Prog.bind_apply, Prog.mapCalls_apply, h, Exec.after]

/-- C9: in `run`, once the new profile has been fetched from `backend.URL`, the profiles handed to
the merger follow the existence lookup.  If the lookup reports not-found, `backend.URL` is the
only URL fetched and the merger receives `[new]`.  If the lookup returns a non-empty download URL
and the profile behind it is fetched, the URLs fetched are `backend.URL` then the download URL and
the merger receives `[new, existing]`.  A lookup error other than not-found makes `run` return
that error, wrapped, with no merge and no call of `UpdatePGOFile`.  In every case, when the merge
succeeds, `UpdatePGOFile` is run on the uncompressed encoding of the merged profile. -/
theorem run_profiles_follow_lookup (DefaultClient : http.Client σ) (codec : profile.Codec P)
    (backend : config.Backend) (ghClient : Client σ) (s s₁ : σ) (newProfile : P)
    (cs₁ : List HttpCall)
    (hnew : (pprof.NewFetcher DefaultClient).FromURL codec backend.URL s =
      ⟨.ret (some newProfile, none), s₁, cs₁⟩) :
    (∀ url e, (ghClient.ExistingPGOFileURL (runOptions backend) s₁).out = .ret (url, some e) →
      GoError.Is e .ErrPGOFileNotFound = true →
      (run DefaultClient codec backend ghClient s).calls.filterMap Event.fetchedURL =
        [backend.URL] ∧
      (run DefaultClient codec backend ghClient s).calls.filterMap Event.mergeInput =
        [[some newProfile]] ∧
      run DefaultClient codec backend ghClient s =
        Exec.after
          (cs₁.map .http ++
            (ghClient.ExistingPGOFileURL (runOptions backend) s₁).calls.map .github)
          (mergeAndPublish codec ghClient (runOptions backend) [some newProfile]
            (ghClient.ExistingPGOFileURL (runOptions backend) s₁).world)) ∧
    (∀ url existing s₃ cs₃,
      (ghClient.ExistingPGOFileURL (runOptions backend) s₁).out = .ret (url, none) →
      url ≠ "" →
      (pprof.NewFetcher DefaultClient).FromURL codec url
        (ghClient.ExistingPGOFileURL (runOptions backend) s₁).world =
          ⟨.ret (existing, none), s₃, cs₃⟩ →
      (run DefaultClient codec backend ghClient s).calls.filterMap Event.fetchedURL =
        [backend.URL, url] ∧
      (run DefaultClient codec backend ghClient s).calls.filterMap Event.mergeInput =
        [[some newProfile, existing]] ∧
      run DefaultClient codec backend ghClient s =
        Exec.after
          (cs₁.map .http ++
            (ghClient.ExistingPGOFileURL (runOptions backend) s₁).calls.map .github ++
            cs₃.map .http)
          (mergeAndPublish codec ghClient (runOptions backend) [some newProfile, existing]
            s₃)) ∧
    (∀ url e, (ghClient.ExistingPGOFileURL (runOptions backend) s₁).out = .ret (url, some e) →
      GoError.Is e .ErrPGOFileNotFound = false →
      (run DefaultClient codec backend ghClient s).out =
        .ret (some (.wrapf "ghClient.ExistingPGOFileURL: " e)) ∧
      (run DefaultClient codec backend ghClient s).calls.filterMap Event.mergeInput = [] ∧
      ∀ ev ∈ (run DefaultClient codec backend ghClient s).calls, ev.isPublish = false) ∧
    (∀ profiles merged s', codec.Merge profiles = (some merged, none) →
      mergeAndPublish codec ghClient (runOptions backend) profiles s' =
        Exec.after
          [.pprof (.Merge profiles (some merged, none)),
           .pprof (.Write (codec.serialize merged) ((codec.serialize merged).length, none))]
          ⟨publishResult
              (ghClient.UpdatePGOFile (runOptions backend) (codec.serialize merged) s').out,
            (ghClient.UpdatePGOFile (runOptions backend) (codec.serialize merged) s').world,
            (ghClient.UpdatePGOFile (runOptions backend) (codec.serialize merged) s').calls.map
              .github⟩) := by
  obtain ⟨resp₁, rfl⟩ := pprof.FromURL_calls_of_ret _ _ _ _ _ _ _ hnew
  rw [run_after_fetch DefaultClient codec backend ghClient s s₁ newProfile _ hnew]
  refine ⟨?_, ?_, ?_, ?_⟩
  · intro url e hout his
    obtain rfl := Client.ExistingPGOFileURL_error_url _ _ _ _ _ hout
    have hm := mergeAndPublish_observed codec ghClient (runOptions backend) [some newProfile]
      (ghClient.ExistingPGOFileURL (runOptions backend) s₁).world
    simp [hout, his, collectAndPublish_empty, Exec.after, hm.1, hm.2, Event.fetchedURL,
      Event.mergeInput, List.filterMap_cons, List.filterMap_append]
  · intro url existing s₃ cs₃ hout hurl hex
    obtain ⟨resp₃, rfl⟩ := pprof.FromURL_calls_of_ret _ _ _ _ _ _ _ hex
    have hm := mergeAndPublish_observed codec ghClient (runOptions backend)
      [some newProfile, existing] s₃
    simp [hout, collectAndPublish_fetched _ _ _ _ _ _ _ _ _ _ hurl hex, Exec.after, hm.1, hm.2,
      Event.fetchedURL, Event.mergeInput, List.filterMap_cons, List.filterMap_append]
  · intro url e hout his
    obtain ⟨res, hc⟩ := Client.ExistingPGOFileURL_calls ghClient (runOptions backend) s₁
    simp [hout, his, hc, Exec.after, Event.mergeInput, Event.isPublish, Call.step]
  · intro profiles merged s' hmerge
    rw [mergeAndPublish_apply, hmerge]

/-- Witness of C9: the end-to-end scenario in which the backend serves a profile. -/
theorem run_profiles_follow_lookup_witness :
    (pprof.NewFetcher (fixedResponse 200 [1])).FromURL bytesCodec testBackend.URL () =
      ⟨.ret (some [1], none), (),
        [.Do { Method := "GET", URL := testBackend.URL }
          (some { StatusCode := 200, Body := [1] }, none)]⟩ ∧
    (run (fixedResponse 200 [1]) bytesCodec testBackend happy.client ()).calls.filterMap
      Event.fetchedURL = [testBackend.URL, "https://github.com/my-org/my-repo/blob/main/default.pgo"] :=
  ⟨rfl,
    ((run_profiles_follow_lookup (fixedResponse 200 [1]) bytesCodec testBackend happy.client
      () () [1] _ rfl).2.1 "https://github.com/my-org/my-repo/blob/main/default.pgo" (some [1]) ()
      [.Do { Method := "GET", URL := "https://github.com/my-org/my-repo/blob/main/default.pgo" }
        (some { StatusCode := 200, Body := [1] }, none)] rfl (by decide) rfl).1⟩

end Run

/-! ### `ParseRepoURL` on malformed input -/

namespace strings

theorem cutChars_none (sep : List Char) (s : List Char) (h : cutChars sep s = none) (a b : List Char) :
    s ≠ a ++ sep ++ b := by
  induction s generalizing a with
  | nil =>
    intro e
    have : sep = [] := by
      have := congrArg List.length e
      simp at this
      exact List.length_eq_zero.1 (by omega)
    simp [cutChars, this] at h
  | cons c cs ih =>
    intro e
    by_cases hp : sep.isPrefixOf (c :: cs) = true
    · simp [cutChars, hp] at h
    · have hrec : cutChars sep cs = none := by
        simp only [cutChars, hp] at h
        cases hc : cutChars sep cs with
        | none => rfl
        | some p => simp [hc] at h
      cases a with
      | nil =>
        apply hp
        rw [List.isPrefixOf_iff_prefix]
        exact ⟨b, by simpa using e.symm⟩
      | cons x a =>
        simp only [List.cons_append, List.cons.injEq] at e
        exact ih hrec a e.2

theorem cutChars_some (sep : List Char) (s a b : List Char) (h : cutChars sep s = some (a, b)) :
    s = a ++ sep ++ b := by
  induction s generalizing a with
  | nil =>
    by_cases hs : sep = []
    · simp [cutChars, hs] at h
      simp [hs, h.1, h.2]
    · simp [cutChars, hs] at h
  | cons c cs ih =>
    by_cases hp : sep.isPrefixOf (c :: cs) = true
    · simp only [cutChars, hp, if_true, Option.some.injEq, Prod.mk.injEq] at h
      obtain ⟨rfl, rfl⟩ := h
      rw [List.isPrefixOf_iff_prefix] at hp
      obtain ⟨t, ht⟩ := hp
      rw [← ht]
      simp
    · simp only [cutChars, hp] at h
      cases hc : cutChars sep cs with
      | none => simp [hc] at h
      | some p =>
        obtain ⟨a', b'⟩ := p
        simp only [hc, Option.some.injEq, Prod.mk.injEq] at h
        obtain ⟨rfl, rfl⟩ := h
        have := ih a' hc
        simp [this]

end strings

theorem ParseRepoURL_of_nothing_after (repoURL : String)
    (h : (strings.Cut repoURL "github.com/").2.1 = "") : ParseRepoURL repoURL = ⟨"", ""⟩ := by
  simp only [ParseRepoURL, h]
  decide

theorem Cut_of_not_occurs (s sep : String) (h : ¬ strings.Occurs s sep) :
    strings.Cut s sep = (s, "", false) := by
  cases hc : strings.cutChars sep.data s.data with
  | none => simp [strings.Cut, hc]
  | some p =>
    exfalso
    apply h
    have := strings.cutChars_some _ _ _ _ hc
    exact ⟨String.mk p.1, String.mk p.2, String.ext (by simpa using this)⟩

theorem Cut_of_endsAfterFirst (s sep : String) (h : strings.EndsAfterFirst s sep) :
    (strings.Cut s sep).2.1 = "" := by
  obtain ⟨a, ha, hall⟩ := h
  cases hc : strings.cutChars sep.data s.data with
  | none =>
    exact absurd (by simp [ha]) (strings.cutChars_none _ _ hc a.data [])
  | some p =>
    have := strings.cutChars_some _ _ _ _ hc
    have hb := hall (String.mk p.1) (String.mk p.2) (String.ext (by simpa using this))
    simp [strings.Cut, hc, hb]

/-- C11: for every input in which the marker `github.com/` does not occur, and for every input
that ends immediately after the first occurrence of the marker, `ParseRepoURL` returns
`Repository{Org: "", Name: ""}`. -/
theorem ParseRepoURL_malformed (repoURL : String)
    (h : ¬ strings.Occurs repoURL "github.com/" ∨ strings.EndsAfterFirst repoURL "github.com/") :
    ParseRepoURL repoURL = { Org := "", Name := "" } := by
  apply ParseRepoURL_of_nothing_after
  rcases h with h | h
  · rw [Cut_of_not_occurs _ _ h]
  · exact Cut_of_endsAfterFirst _ _ h

theorem not_occurs_of_cutChars_none (s sep : String)
    (h : strings.cutChars sep.data s.data = none) : ¬ strings.Occurs s sep := by
  rintro ⟨a, b, rfl⟩
  exact strings.cutChars_none _ _ h a.data b.data (by simp)

/-- Witness of C11: a URL of another host. -/
theorem ParseRepoURL_malformed_witness :
    (¬ strings.Occurs "https://gitlab.com/my-org/my-repo" "github.com/" ∨
      strings.EndsAfterFirst "https://gitlab.com/my-org/my-repo" "github.com/") ∧
    ParseRepoURL "https://gitlab.com/my-org/my-repo" = { Org := "", Name := "" } :=
  ⟨Or.inl (not_occurs_of_cutChars_none _ _ (by decide)),
    ParseRepoURL_malformed _ (Or.inl (not_occurs_of_cutChars_none _ _ (by decide)))⟩

/-! ### `ParseRepoURL` and the host of the URL -/

namespace strings

theorem cutChars_cons_ne (c₀ x : Char) (sep rest : List Char) (h : x ≠ c₀) :
    cutChars (c₀ :: sep) (x :: rest) =
      match cutChars (c₀ :: sep) rest with
      | some (before, after) => some (x :: before, after)
      | none => none := by
  simp [cutChars, List.isPrefixOf, Ne.symm h]

theorem cutChars_last (c : Char) (body pre post : List Char) (hb : c ∉ body) (hp : c ∉ pre) :
    cutChars (body ++ [c]) (pre ++ (body ++ [c]) ++ post) = some (pre, post) := by
  induction pre with
  | nil =>
    cases hbody : body ++ [c] with
    | nil => simp at hbody
    | cons y ys =>
      have : (y :: ys).isPrefixOf (y :: ys ++ post) = true := by
        rw [List.isPrefixOf_iff_prefix]
        exact List.prefix_append _ _
      simp only [List.nil_append, List.cons_append] at this ⊢
      simp [cutChars, this]
  | cons x pre ih =>
    have hx : x ≠ c := fun e => hp (by simp [e])
    have hp' : c ∉ pre := fun e => hp (by simp [e])
    have hnot : (body ++ [c]).isPrefixOf (x :: pre ++ (body ++ [c]) ++ post) = false := by
      cases hpre : (body ++ [c]).isPrefixOf (x :: pre ++ (body ++ [c]) ++ post) with
      | false => rfl
      | true =>
        exfalso
        rw [List.isPrefixOf_iff_prefix] at hpre
        obtain ⟨t, ht⟩ := hpre
        have h1 := congrArg (fun l => l.take (body.length + 1)) ht
        simp only [List.append_assoc] at h1
        have e1 : (body ++ ([c] ++ t)).take (body.length + 1) = body ++ [c] := by
          rw [← List.append_assoc, List.take_append_of_le_length (by simp)]
          simp
        have e2 : (x :: pre ++ (body ++ ([c] ++ post))).take (body.length + 1) =
            (x :: pre ++ body).take (body.length + 1) := by
          rw [← List.append_assoc, List.take_append_of_le_length (by simp)]
        rw [e1, e2] at h1
        have hc : c ∈ (x :: pre ++ body).take (body.length + 1) := by
          rw [← h1]; simp
        have := List.mem_of_mem_take hc
        simp only [List.cons_append, List.mem_cons, List.mem_append] at this
        rcases this with h | h | h
        · exact hx h.symm
        · exact hp' h
        · exact hb h
    have := ih hp'
    simp only [List.cons_append] at hnot ⊢
    generalize pre ++ (body ++ [c]) ++ post = rest at hnot this ⊢
    simp [cutChars, hnot, this]

end strings

theorem cutChars_https (t : List Char) :
    strings.cutChars "github.com/".data ("https://".data ++ t) =
      match strings.cutChars "github.com/".data t with
      | some (before, after) => some ("https://".data ++ before, after)
      | none => none := by
  have e1 : "https://".data = ['h', 't', 't', 'p', 's', ':', '/', '/'] := rfl
  have e2 : "github.com/".data = 'g' :: "ithub.com/".data := rfl
  rw [e1, e2]
  simp only [List.cons_append, List.nil_append]
  rw [strings.cutChars_cons_ne _ _ _ _ (by decide), strings.cutChars_cons_ne _ _ _ _ (by decide),
    strings.cutChars_cons_ne _ _ _ _ (by decide), strings.cutChars_cons_ne _ _ _ _ (by decide),
    strings.cutChars_cons_ne _ _ _ _ (by decide), strings.cutChars_cons_ne _ _ _ _ (by decide),
    strings.cutChars_cons_ne _ _ _ _ (by decide), strings.cutChars_cons_ne _ _ _ _ (by decide)]
  cases strings.cutChars ('g' :: "ithub.com/".data) t with
  | none => rfl
  | some p => rfl

theorem Cut_marker_host (h rest : String) (hh : '/' ∉ h.data) :
    strings.Cut ("https://" ++ h ++ "github.com" ++ "/" ++ rest) "github.com/" =
      ("https://" ++ h, rest, true) := by
  have e : ("https://" ++ h ++ "github.com" ++ "/" ++ rest).data =
      "https://".data ++ (h.data ++ ("github.com".data ++ ['/']) ++ rest.data) := by
    simp
  have hc := strings.cutChars_last '/' "github.com".data h.data rest.data (by decide) hh
  have e3 : "github.com/".data = "github.com".data ++ ['/'] := rfl
  rw [strings.Cut, e, cutChars_https, e3, hc]
  simp [String.ext_iff]


/-- C12, as stated, fails: for the host `gitlab.com`, with organisation and name not empty, the
marker does not occur and both fields of the result are empty. -/
theorem ParseRepoURL_invariant_fails_for_other_host :
    ¬ RepositoryInvariant
      (ParseRepoURL ("https://" ++ "gitlab.com" ++ "/" ++ "my-org" ++ "/" ++ "my-repo")) ∧
    ParseRepoURL ("https://" ++ "gitlab.com" ++ "/" ++ "my-org" ++ "/" ++ "my-repo") =
      { Org := "", Name := "" } :=
  ⟨fun h => h.1 (by decide), by decide⟩

/-- C12, amended: for every URL `https://<host>/<org>/<name>` or `https://<host>/<org>/<name>/`
whose host ends with `github.com` (the host is `h ++ "github.com"`), with `h`, `org` and `name`
free of `/` and `org`, `name` not empty, `ParseRepoURL` returns exactly `{org, name}`: both
fields are not empty and the name has no trailing slash. -/
theorem ParseRepoURL_invariant_github_host (h org name : String) (hh : '/' ∉ h.data)
    (ho : '/' ∉ org.data) (hn : '/' ∉ name.data) (horg : org ≠ "") (hname : name ≠ "") :
    ParseRepoURL ("https://" ++ h ++ "github.com" ++ "/" ++ org ++ "/" ++ name) =
      { Org := org, Name := name } ∧
    ParseRepoURL ("https://" ++ h ++ "github.com" ++ "/" ++ org ++ "/" ++ name ++ "/") =
      { Org := org, Name := name } ∧
    RepositoryInvariant
      (ParseRepoURL ("https://" ++ h ++ "github.com" ++ "/" ++ org ++ "/" ++ name)) ∧
    RepositoryInvariant
      (ParseRepoURL ("https://" ++ h ++ "github.com" ++ "/" ++ org ++ "/" ++ name ++ "/")) := by
  have e1 : "https://" ++ h ++ "github.com" ++ "/" ++ org ++ "/" ++ name =
      "https://" ++ h ++ "github.com" ++ "/" ++ (org ++ "/" ++ name) := by
    simp [String.append_assoc]
  have e2 : "https://" ++ h ++ "github.com" ++ "/" ++ org ++ "/" ++ name ++ "/" =
      "https://" ++ h ++ "github.com" ++ "/" ++ (org ++ "/" ++ (name ++ "/")) := by
    simp [String.append_assoc]
  have p1 : ParseRepoURL ("https://" ++ h ++ "github.com" ++ "/" ++ org ++ "/" ++ name) =
      { Org := org, Name := name } := by
    rw [e1]
    simp only [ParseRepoURL, Cut_marker_host _ _ hh, Cut_slash org name ho]
    rw [show ("/" : String) = String.mk ['/'] from rfl, strings.TrimSuffix_absent name '/' hn]
  have p2 : ParseRepoURL ("https://" ++ h ++ "github.com" ++ "/" ++ org ++ "/" ++ name ++ "/") =
      { Org := org, Name := name } := by
    rw [e2]
    simp only [ParseRepoURL, Cut_marker_host _ _ hh, Cut_slash org (name ++ "/") ho]
    rw [show ("/" : String) = String.mk ['/'] from rfl, strings.TrimSuffix_present name '/']
  rw [p1, p2]
  exact ⟨rfl, rfl, ⟨horg, hname, not_HasSuffix_slash name hn⟩,
    ⟨horg, hname, not_HasSuffix_slash name hn⟩⟩

/-- Witness of C12: the host `www.github.com`. -/
theorem ParseRepoURL_invariant_github_host_witness :
    '/' ∉ "www.".data ∧ '/' ∉ "my-org".data ∧ '/' ∉ "my-repo".data ∧
    ("my-org" : String) ≠ "" ∧ ("my-repo" : String) ≠ "" ∧
    ParseRepoURL ("https://" ++ "www." ++ "github.com" ++ "/" ++ "my-org" ++ "/" ++ "my-repo") =
      { Org := "my-org", Name := "my-repo" } :=
  ⟨by decide, by decide, by decide, by decide, by decide,
    (ParseRepoURL_invariant_github_host "www." "my-org" "my-repo" (by decide) (by decide)
      (by decide) (by decide) (by decide)).1⟩

/-! ### `MergeProfiles` -/

namespace pprof

variable {ω P : Type}

theorem MergeProfiles_apply (codec : profile.Codec P) (w : io.Writer ω)
    (profiles : List (Option P)) (b : ω) :
    MergeProfiles codec w profiles b =
      match codec.Merge profiles with
      | (_, some err) =>
        ⟨.ret (some (.wrapf "profile.Merge: " (.lib err))), b,
          [.Merge profiles (codec.Merge profiles)]⟩
      | (none, none) => ⟨.nilDeref, b, [.Merge profiles (codec.Merge profiles)]⟩
      | (some merged, none) =>
        ⟨match (w.Write (codec.serialize merged) b).1.2 with
          | some err => .ret (some (.wrapf "mergedProfile.WriteUncompressed: " (.lib err)))
          | none => .ret none,
         (w.Write (codec.serialize merged) b).2,
         [.Merge profiles (codec.Merge profiles),
          .Write (codec.serialize merged) (w.Write (codec.serialize merged) b).1]⟩ := by
  simp only [MergeProfiles, Prog.bind_eq, Prog.pure_eq, Prog.bind_call]
  rcases h : codec.Merge profiles with ⟨merged, _ | err⟩
  · rcases merged with _ | merged
    · simp
    · rcases hw : w.Write (codec.serialize merged) b with ⟨⟨n, _ | err⟩, b'⟩ <;> simp [hw]
  · simp

/-- C13: when the merge of the codec fails on `profiles`, `MergeProfiles` returns the error
`fmt.Errorf("profile.Merge: %w", err)`, in which `errors.Is` finds the error of the merge; the
merge is its only call, nothing is written and the sink `w` is left as it was.  When the merge
answers a profile and the write succeeds, the one thing written to `w` is the uncompressed
encoding of the merged profile, and the error returned is nil. -/
theorem MergeProfiles_writes_all_or_nothing (codec : profile.Codec P) (w : io.Writer ω)
    (profiles : List (Option P)) (b : ω) :
    (∀ merged err, codec.Merge profiles = (merged, some err) →
      MergeProfiles codec w profiles b =
        ⟨.ret (some (.wrapf "profile.Merge: " (.lib err))), b,
          [.Merge profiles (merged, some err)]⟩ ∧
      GoError.Is (.wrapf "profile.Merge: " (.lib err)) (.lib err) = true) ∧
    (∀ merged n b', codec.Merge profiles = (some merged, none) →
      w.Write (codec.serialize merged) b = ((n, none), b') →
      MergeProfiles codec w profiles b =
        ⟨.ret none, b',
          [.Merge profiles (some merged, none), .Write (codec.serialize merged) (n, none)]⟩) := by
  constructor
  · intro merged err h
    simp [MergeProfiles_apply, h, GoError.Is]
  · intro merged n b' h hw
    simp [MergeProfiles_apply, h, hw]

end pprof

/-! ### The object graph built by `UpdatePGOFile` -/

namespace Client

variable {σ : Type}

/-- C14: in every execution of `UpdatePGOFile` that makes the commit-creation call, the first
three calls are the blob creation, answered with a blob of SHA `blobSHA`, the ref listing, on
which `findMainBranchRef` returns the ref `ref` whose object has SHA `mainSHA`, and the tree
creation, given `mainSHA` as base and exactly one entry
`{path: opts.Filename, sha: blobSHA, type "blob", mode "100644"}`; the commit-creation call is
given the tree answered by that tree creation and the one-element parents list `[mainSHA]`. -/
theorem UpdatePGOFile_builds_on_base_commit (c : Client σ) (opts : Options)
    (content : List UInt8) (s : σ) (owner repo : String) (commitReq : github.Commit)
    (res : Option github.Commit × Option LibError)
    (hcommit : Call.CreateCommit owner repo commitReq res ∈
      (c.UpdatePGOFile opts content s).calls) :
    ∃ blob blobSHA refs ref mainSHA tree,
      (c.UpdatePGOFile opts content s).calls.take 3 =
        [.CreateBlob opts.Repo.Org opts.Repo.Name (blobRequest content) (some blob, none),
         .ListMatchingRefs opts.Repo.Org opts.Repo.Name none (refs, none),
         .CreateTree opts.Repo.Org opts.Repo.Name mainSHA
           [some { Path := some opts.Filename, SHA := some blobSHA, EntryType := some "blob",
                   Mode := some "100644" }]
           (tree, none)] ∧
      blob.SHA = some blobSHA ∧
      (c.findMainBranchRef opts
        (c.github.CreateBlob opts.Repo.Org opts.Repo.Name (blobRequest content) s).2).out =
          .ret (some ref, none) ∧
      ref.Object = some { SHA := some mainSHA } ∧
      commitReq.Tree = tree ∧
      commitReq.Parents = [some { SHA := some mainSHA }] := by
  have h := UpdatePGOFile_run c opts content s
  generalize c.UpdatePGOFile opts content s = e at h hcommit
  cases h <;>
    simp only [List.mem_cons, List.mem_singleton, List.not_mem_nil, reduceCtorEq, or_false,
      false_or, Call.CreateCommit.injEq] at hcommit <;>
    obtain ⟨-, -, rfl, -⟩ := hcommit <;>
    refine ⟨_, _, _, _, _, _, rfl, ‹_›, ?_, ‹_›, rfl, rfl⟩ <;>
    simp [findMainBranchRef_apply, *]

/-- Witness of C14: the scenario in which every call succeeds. -/
theorem UpdatePGOFile_builds_on_base_commit_witness :
    Call.CreateCommit "my-org" "my-repo"
        (commitRequest (some { SHA := none, Entries := [] }) "another-very-real-sha" happy.now)
        happy.createCommit ∈ (happy.client.UpdatePGOFile testOpts [] ()).calls ∧
    ∃ blob blobSHA refs ref mainSHA tree,
      (happy.client.UpdatePGOFile testOpts [] ()).calls.take 3 =
        [.CreateBlob testOpts.Repo.Org testOpts.Repo.Name (blobRequest []) (some blob, none),
         .ListMatchingRefs testOpts.Repo.Org testOpts.Repo.Name none (refs, none),
         .CreateTree testOpts.Repo.Org testOpts.Repo.Name mainSHA
           [some { Path := some testOpts.Filename, SHA := some blobSHA,
                   EntryType := some "blob", Mode := some "100644" }]
           (tree, none)] ∧
      blob.SHA = some blobSHA ∧
      (happy.client.findMainBranchRef testOpts
        (happy.client.github.CreateBlob testOpts.Repo.Org testOpts.Repo.Name (blobRequest [])
          ()).2).out = .ret (some ref, none) ∧
      ref.Object = some { SHA := some mainSHA } ∧
      (commitRequest (some { SHA := none, Entries := [] }) "another-very-real-sha"
        happy.now).Tree = tree ∧
      (commitRequest (some { SHA := none, Entries := [] }) "another-very-real-sha"
        happy.now).Parents = [some { SHA := some mainSHA }] :=
  ⟨.tail _ (.tail _ (.tail _ (.head _))),
    UpdatePGOFile_builds_on_base_commit happy.client testOpts [] () "my-org" "my-repo" _ _
      (.tail _ (.tail _ (.tail _ (.head _))))⟩

end Client

/-! ### `createNewRef` and the decimal numeral of `strconv.Itoa` -/

namespace strconv

theorem digitChar_toNat (d : Nat) (h : d < 10) : (digitChar d).toNat = 48 + d := by
  interval_cases d <;> rfl

theorem digitChar_ne_minus (d : Nat) (h : d < 10) : digitChar d ≠ '-' := by
  interval_cases d <;> decide

theorem decimalValue_append (cs : List Char) (ch : Char) :
    decimalValue (cs ++ [ch]) = 10 * decimalValue cs + (ch.toNat - 48) := by
  simp [decimalValue, List.foldl_append]

theorem decimalValue_decimalDigits (fuel n : Nat) (h : n < fuel) :
    decimalValue (decimalDigits fuel n) = n := by
  induction fuel generalizing n with
  | zero => omega
  | succ fuel ih =>
    by_cases hn : n < 10
    · simp [decimalDigits, hn, decimalValue, digitChar_toNat n hn]
    · have hlt : n / 10 < fuel := by omega
      have hd := digitChar_toNat (n % 10) (Nat.mod_lt _ (by decide))
      simp only [decimalDigits, hn, if_false, decimalValue_append, ih _ hlt, hd]
      omega

theorem decimalDigits_head (fuel n : Nat) (h : n < fuel) :
    ∃ d cs, d < 10 ∧ decimalDigits fuel n = digitChar d :: cs := by
  induction fuel generalizing n with
  | zero => omega
  | succ fuel ih =>
    by_cases hn : n < 10
    · exact ⟨n, [], hn, by simp [decimalDigits, hn]⟩
    · obtain ⟨d, cs, hd, hcs⟩ := ih (n / 10) (by omega)
      exact ⟨d, cs ++ [digitChar (n % 10)], hd, by simp [decimalDigits, hn, hcs]⟩

theorem decimalInt_Itoa (i : Int) : decimalInt (Itoa i) = i := by
  by_cases hi : i < 0
  · simp only [Itoa, hi, if_true, decimalInt]
    rw [decimalValue_decimalDigits _ _ (Nat.lt_succ_self _)]
    omega
  · obtain ⟨d, cs, hd, hcs⟩ := decimalDigits_head (i.toNat + 1) i.toNat (Nat.lt_succ_self _)
    have hv := decimalValue_decimalDigits (i.toNat + 1) i.toNat (Nat.lt_succ_self _)
    simp only [Itoa, hi, if_false, decimalInt]
    rw [hcs] at hv ⊢
    have hne := digitChar_ne_minus d hd
    split
    · rename_i cs' heq
      simp only [List.cons.injEq] at heq
      exact absurd heq.1 hne
    · rw [hv]
      omega

theorem Itoa_injective (i j : Int) (h : Itoa i = Itoa j) : i = j := by
  rw [← decimalInt_Itoa i, ← decimalInt_Itoa j, h]

end strconv

namespace Client

variable {σ : Type}

theorem append_left_injective (p a b : String) (h : p ++ a = p ++ b) : a = b := by
  have := congrArg String.data h
  simp only [String.data_append, List.append_cancel_left_eq] at this
  exact String.ext this

/-- C15: `createNewRef` makes one call, the creation of a ref whose name is
`"refs/heads/cpgo-update-"` followed by the decimal numeral of the Unix seconds of the clock at
the call (reading the numeral back gives those seconds) and whose object is the commit SHA it was
given; two invocations at different Unix seconds request different names; and in
`UpdatePGOFile` the SHA given is the one answered by the commit creation. -/
theorem createNewRef_requests_timestamped_ref (c : Client σ) (opts : Options)
    (commitSHA : Option String) (s : σ) :
    (∃ res, (c.createNewRef opts commitSHA s).calls =
      [.CreateRef opts.Repo.Org opts.Repo.Name
        { Ref := some ("refs/heads/cpgo-update-" ++ strconv.Itoa (c.github.Now s).1.Unix),
          Object := some { SHA := commitSHA } } res]) ∧
    strconv.decimalInt (strconv.Itoa (c.github.Now s).1.Unix) = (c.github.Now s).1.Unix ∧
    (∀ (c' : Client σ) (opts' : Options) (commitSHA' : Option String) (s' : σ)
      (owner repo owner' repo' : String) (ref ref' : github.Reference)
      (res res' : Option github.Reference × Option LibError),
      (c.github.Now s).1.Unix ≠ (c'.github.Now s').1.Unix →
      (c.createNewRef opts commitSHA s).calls = [.CreateRef owner repo ref res] →
      (c'.createNewRef opts' commitSHA' s').calls = [.CreateRef owner' repo' ref' res'] →
      ref.Ref ≠ ref'.Ref) ∧
    (∀ content owner repo ref res,
      Call.CreateRef owner repo ref res ∈ (c.UpdatePGOFile opts content s).calls →
      ∃ commit owner' repo' req t,
        Call.CreateCommit owner' repo' req (some commit, none) ∈
          (c.UpdatePGOFile opts content s).calls ∧
        ref.Object = some { SHA := commit.SHA } ∧
        ref.Ref = some ("refs/heads/cpgo-update-" ++ strconv.Itoa (t : Time).Unix)) := by
  refine ⟨?_, strconv.decimalInt_Itoa _, ?_, ?_⟩
  · simp [createNewRef_apply, refRequest]
  · intro c' opts' commitSHA' s' owner repo owner' repo' ref ref' res res' hne h h'
    simp only [createNewRef_apply, refRequest, List.cons.injEq, Call.CreateRef.injEq,
      and_true] at h h'
    obtain ⟨-, -, rfl, -⟩ := h
    obtain ⟨-, -, rfl, -⟩ := h'
    intro e
    simp only [Option.some.injEq] at e
    exact hne (strconv.Itoa_injective _ _ (append_left_injective _ _ _ e))
  · intro content owner repo ref res hmem
    have h := UpdatePGOFile_run c opts content s
    generalize c.UpdatePGOFile opts content s = e at h hmem
    cases h <;>
      simp only [List.mem_cons, List.mem_singleton, List.not_mem_nil, reduceCtorEq, or_false,
        false_or, Call.CreateRef.injEq] at hmem <;>
      obtain ⟨-, -, rfl, -⟩ := hmem <;>
      exact ⟨_, _, _, _, _, .tail _ (.tail _ (.tail _ (.head _))), rfl, rfl⟩

end Client

/-! ### Head and base of the pull request -/

namespace Client

variable {σ : Type}

theorem CutPrefix_isShortName (name : String) :
    IsShortName name (strings.CutPrefix name "refs/heads/").1 := by
  by_cases h : "refs/heads/".data.isPrefixOf name.data = true
  · left
    have hp := h
    rw [List.isPrefixOf_iff_prefix] at hp
    obtain ⟨t, ht⟩ := hp
    refine ⟨String.mk t, String.ext (by simpa using ht.symm), ?_⟩
    simp only [strings.CutPrefix, h, if_true]
    apply String.ext
    rw [← ht]
    simp
  · right
    refine ⟨?_, by simp [strings.CutPrefix, h]⟩
    rintro ⟨x, rfl⟩
    apply h
    rw [List.isPrefixOf_iff_prefix]
    exact ⟨x.data, by simp⟩

theorem CutPrefix_refs_heads (x : String) :
    (strings.CutPrefix ("refs/heads/" ++ x) "refs/heads/").1 = x := by
  rcases CutPrefix_isShortName ("refs/heads/" ++ x) with ⟨y, hy, h⟩ | ⟨hn, -⟩
  · rw [h]
    exact (append_left_injective _ _ _ hy).symm
  · exact absurd ⟨x, rfl⟩ hn

/-- C16: `openPullRequest` makes one call, the creation of a pull request whose head is `prRef`
and whose base is `mainRef`, each with one leading `refs/heads/` removed and unchanged when it
does not start with `refs/heads/`; for `mainRef = "refs/heads/" + opts.MainBranch` the base is
exactly `opts.MainBranch`.  In `UpdatePGOFile`, `prRef` is the name of the ref answered by the ref
creation and `mainRef` the name of the ref that the loop of `findMainBranchRef` finds in the
listing. -/
theorem openPullRequest_from_new_ref_into_base (c : Client σ) (opts : Options) (s : σ) :
    (∀ prRef mainRef, ∃ req res,
      (c.openPullRequest opts prRef mainRef s).calls =
        [.CreatePullRequest opts.Repo.Org opts.Repo.Name req res] ∧
      ∃ head base, req.Head = some head ∧ req.Base = some base ∧
        IsShortName prRef head ∧ IsShortName mainRef base) ∧
    (∀ prRef, ∃ req res,
      (c.openPullRequest opts prRef ("refs/heads/" ++ opts.MainBranch) s).calls =
        [.CreatePullRequest opts.Repo.Org opts.Repo.Name req res] ∧
      req.Base = some opts.MainBranch) ∧
    (∀ content owner repo req res,
      Call.CreatePullRequest owner repo req res ∈ (c.UpdatePGOFile opts content s).calls →
      ∃ refs ref m newRef r refReq head base,
        Call.ListMatchingRefs opts.Repo.Org opts.Repo.Name none (refs, none) ∈
          (c.UpdatePGOFile opts content s).calls ∧
        findRefLoop opts refs = some ref ∧ ref.Ref = some m ∧
        Call.CreateRef opts.Repo.Org opts.Repo.Name refReq (some newRef, none) ∈
          (c.UpdatePGOFile opts content s).calls ∧
        newRef.Ref = some r ∧
        req.Head = some head ∧ req.Base = some base ∧
        IsShortName r head ∧ IsShortName m base) := by
  refine ⟨?_, ?_, ?_⟩
  · intro prRef mainRef
    exact ⟨_, _, by rw [openPullRequest_apply], _, _, rfl, rfl, CutPrefix_isShortName _,
      CutPrefix_isShortName _⟩
  · intro prRef
    refine ⟨_, _, by rw [openPullRequest_apply], ?_⟩
    simp [pullRequest, CutPrefix_refs_heads]
  · intro content owner repo req res hmem
    have h := UpdatePGOFile_run c opts content s
    generalize c.UpdatePGOFile opts content s = e at h hmem
    cases h <;>
      simp only [List.mem_cons, List.mem_singleton, List.not_mem_nil, reduceCtorEq, or_false,
        false_or, Call.CreatePullRequest.injEq] at hmem <;>
      obtain ⟨-, -, rfl, -⟩ := hmem <;>
      exact ⟨_, _, _, _, _, _, _, _, .tail _ (.head _), ‹_›, ‹_›,
        .tail _ (.tail _ (.tail _ (.tail _ (.head _)))), ‹_›, rfl, rfl,
        CutPrefix_isShortName _, CutPrefix_isShortName _⟩

end Client

/-! ### Suffix matching of the base branch -/

namespace Client

/-- C17: there is a ref list containing the ref named exactly `refs/heads/main` on which
`findMainBranchRef`, with `opts.MainBranch = "main"`, returns another ref, listed earlier, whose
name `refs/heads/not-main` merely ends in `main`; `UpdatePGOFile` then creates the tree on the
commit of that other branch, gives it as the sole parent of the commit, and opens the pull request
against `not-main`. -/
theorem findMainBranchRef_suffix_match_shadows_main :
    ∃ (refs : List (Option github.Reference)) (main other : github.Reference),
      testOpts.MainBranch = "main" ∧
      shadowed.client.github.ListMatchingRefs testOpts.Repo.Org testOpts.Repo.Name none () =
        ((refs, none), ()) ∧
      some main ∈ refs ∧ main.Ref = some "refs/heads/main" ∧
      other ≠ main ∧ other.Ref = some "refs/heads/not-main" ∧
      other.Object = some { SHA := some "sha-of-not-main" } ∧
      (shadowed.client.findMainBranchRef testOpts ()).out = .ret (some other, none) ∧
      (∃ entries res, Call.CreateTree "my-org" "my-repo" "sha-of-not-main" entries res ∈
        (shadowed.client.UpdatePGOFile testOpts [] ()).calls) ∧
      (∃ req res, Call.CreateCommit "my-org" "my-repo" req res ∈
          (shadowed.client.UpdatePGOFile testOpts [] ()).calls ∧
        req.Parents = [some { SHA := some "sha-of-not-main" }]) ∧
      (∃ req res, Call.CreatePullRequest "my-org" "my-repo" req res ∈
          (shadowed.client.UpdatePGOFile testOpts [] ()).calls ∧
        req.Base = some "not-main") ∧
      (shadowed.client.UpdatePGOFile testOpts [] ()).out =
        .ret ("https://github.com/my-org/my-repo/pulls/1", none) :=
  ⟨[some notMainRef, some mainRef], mainRef, notMainRef, rfl, rfl, .tail _ (.head _), rfl,
    by decide, rfl, rfl, by decide,
    ⟨_, _, .tail _ (.tail _ (.head _))⟩,
    ⟨_, _, .tail _ (.tail _ (.tail _ (.head _))), rfl⟩,
    ⟨_, _, .tail _ (.tail _ (.tail _ (.tail _ (.tail _ (.head _))))), by decide⟩,
    by decide⟩

end Client

end Cpgo
